import Mathlib

/-!
Verification development for the Chariott service registry
(`src/registry.rs`).  The Rust data types and the `upsert` algorithm are
shallowly embedded as executable Lean definitions: `HashMap` becomes an
association list with unique keys, `HashSet` becomes a duplicate-free
list, a Rust panic becomes the `UpsertResult.fatal` outcome, and the
observer is represented by the list of `on_change` invocations performed
by the call.
-/

set_option maxHeartbeats 1000000

namespace Chariott

/-- Embeds Rust `ServiceId(Box<str>, Box<str>)` (name, version). -/
structure ServiceId where
  name : String
  version : String
deriving DecidableEq, Repr

/-- Embeds Rust `ExecutionLocality`. -/
inductive ExecutionLocality where
  | Local
  | Cloud
deriving DecidableEq, Repr

/-- Embeds Rust `ServiceConfiguration { id, url, locality }`.  The `url`
field is kept as the raw string; the claims never inspect URL structure. -/
structure ServiceConfiguration where
  id : ServiceId
  url : String
  locality : ExecutionLocality
deriving DecidableEq, Repr

/-- Embeds Rust `IntentKind`. -/
inductive IntentKind where
  | Discover
  | Inspect
  | Read
  | Write
  | Invoke
  | Subscribe
deriving DecidableEq, Repr

/-- Embeds Rust `IntentConfiguration { namespace, intent }`; the namespace
field is called `ns` because `namespace` is a Lean keyword. -/
structure IntentConfiguration where
  ns : String
  intent : IntentKind
deriving DecidableEq, Repr

/-! ### Reserved-namespace check

Rust compares namespaces byte-wise, ASCII-case-insensitively
(`eq_ignore_ascii_case` on `&str` / byte slices).  Strings are UTF-8 in
Rust, so we embed a string as its UTF-8 byte sequence (as `Nat`s). -/

/-- UTF-8 encoding of one scalar value, byte values as `Nat`. -/
def utf8Bytes (c : Char) : List Nat :=
  let v := c.toNat
  if v < 0x80 then [v]
  else if v < 0x800 then
    [0xC0 ||| (v >>> 6), 0x80 ||| (v &&& 0x3F)]
  else if v < 0x10000 then
    [0xE0 ||| (v >>> 12), 0x80 ||| ((v >>> 6) &&& 0x3F), 0x80 ||| (v &&& 0x3F)]
  else
    [0xF0 ||| (v >>> 18), 0x80 ||| ((v >>> 12) &&& 0x3F),
     0x80 ||| ((v >>> 6) &&& 0x3F), 0x80 ||| (v &&& 0x3F)]

/-- The UTF-8 bytes of a string (the view that the Rust method as_bytes gives). -/
def strBytes (s : String) : List Nat :=
  s.data.flatMap utf8Bytes

/-- Embeds Rust `u8::to_ascii_lowercase`. -/
def toAsciiLowercase (b : Nat) : Nat :=
  if 65 ≤ b ∧ b ≤ 90 then b + 32 else b

/-- Embeds `eq_ignore_ascii_case` on byte slices. -/
def eqIgnoreAsciiCase (a b : List Nat) : Bool :=
  a.length == b.length &&
    (List.zip a b).all fun p => toAsciiLowercase p.1 == toAsciiLowercase p.2

/-- Embeds the local fn `starts_with_ignore_ascii_case` of `upsert`:
`string.len() >= prefix.len() && string.as_bytes()[0..prefix.len()]
 .eq_ignore_ascii_case(prefix.as_bytes())`. -/
def startsWithIgnoreAsciiCase (s p : List Nat) : Bool :=
  decide (p.length ≤ s.length) && eqIgnoreAsciiCase (s.take p.length) p

/-- Rust constant `SYSTEM_NAMESPACE`. -/
def systemNamespace : String := "system"

/-- Rust constant `SYSTEM_NAMESPACE_PREFIX`. -/
def systemNamespaceDotted : String := "system."

/-- The condition of the reserved-namespace guard in `upsert` for a single
intent: `ic.namespace.eq_ignore_ascii_case(SYSTEM_NAMESPACE)
|| starts_with_ignore_ascii_case(ic.namespace, SYSTEM_NAMESPACE_PREFIX)`. -/
def isReservedNamespace (ns : String) : Bool :=
  eqIgnoreAsciiCase (strBytes ns) (strBytes systemNamespace)
    || startsWithIgnoreAsciiCase (strBytes ns) (strBytes systemNamespaceDotted)

/-! ### Change tracking -/

/-- Embeds the transaction-local Rust enum `ChangeKind`. -/
inductive ChangeKind where
  | Add
  | Remove
  | Modify
deriving DecidableEq, Repr

/-- Embeds the Rust enum Change; the borrowed service set is materialised as
the list of services bound to the intent at observation time. -/
inductive Change where
  | Add (intent : IntentConfiguration) (services : List ServiceConfiguration)
  | Modify (intent : IntentConfiguration) (services : List ServiceConfiguration)
  | Remove (intent : IntentConfiguration)
deriving DecidableEq, Repr

/-- The intent an individual change refers to. -/
def Change.intentOf : Change → IntentConfiguration
  | .Add i _ => i
  | .Modify i _ => i
  | .Remove i => i

/-- Association-list lookup, embedding `HashMap::get` / indexing. -/
def mapLookup {β : Type} : List (IntentConfiguration × β) → IntentConfiguration → Option β
  | [], _ => none
  | (k, v) :: rest, key => if k = key then some v else mapLookup rest key

/-- Association-list insert-or-replace, embedding `HashMap::insert` /
`entry(..)`-based update. -/
def mapInsert {β : Type} : List (IntentConfiguration × β) → IntentConfiguration → β →
    List (IntentConfiguration × β)
  | [], key, v => [(key, v)]
  | (k, v') :: rest, key, v =>
    if k = key then (key, v) :: rest else (k, v') :: mapInsert rest key v

/-- Embeds `HashSet::insert` on a duplicate-free list of services. -/
def setInsert (s : List ServiceConfiguration) (x : ServiceConfiguration) :
    List ServiceConfiguration :=
  if x ∈ s then s else s ++ [x]

/-- The per-call change map of `TransactionalRegistryUpdate`. -/
abbrev ChangeMap := List (IntentConfiguration × ChangeKind)

/-- Embeds `TransactionalRegistryUpdate::transition`.  The Rust `panic!`
branch (the "impossible transition" assertion) is modelled as `none`. -/
def transition (m : ChangeMap) (intent : IntentConfiguration) (tk : ChangeKind) :
    Option ChangeMap :=
  match mapLookup m intent, tk with
  | none, t => some (mapInsert m intent t)
  | some .Remove, .Add => some (mapInsert m intent .Modify)
  | some .Modify, .Modify => some (mapInsert m intent .Modify)
  | some .Add, .Modify => some (mapInsert m intent .Add)
  | some _, _ => none

/-- Index of the registry by intent: `HashMap<IntentConfiguration,
HashSet<ServiceConfiguration>>`. -/
abbrev IntentMap := List (IntentConfiguration × List ServiceConfiguration)

/-- The `retain` predicate used on the service set of each intent:
`services.retain(|service| service.id != service_configuration.id)`. -/
def pruneFilter (sid : ServiceId) (ss : List ServiceConfiguration) :
    List ServiceConfiguration :=
  ss.filter fun s => decide (s.id ≠ sid)

/-- Embeds the pruning `retain` loop of `upsert`: the set of every entry drops
the services whose id equals the upserted id; a shrunken entry records a
`Remove` (emptied) or `Modify` (still inhabited) transition; emptied
entries are deleted. -/
def pruneByIntent (sid : ServiceId) :
    ChangeMap → IntentMap → Option (ChangeMap × IntentMap)
  | changes, [] => some (changes, [])
  | changes, (ic, services) :: rest =>
    let services2 := pruneFilter sid services
    let step : Option ChangeMap :=
      if services.length ≠ services2.length then
        match services2.length with
        | 0 => transition changes ic .Remove
        | _ + 1 => transition changes ic .Modify
      else some changes
    match step with
    | none => none
    | some changes2 =>
      match pruneByIntent sid changes2 rest with
      | none => none
      | some (changes3, kept) =>
        some (changes3, if services2.isEmpty then kept else (ic, services2) :: kept)

/-- Embeds the binding loop of `upsert`: for each submitted intent, record
a `Modify` transition when the intent already has an entry and `Add`
otherwise, then insert the new configuration into the set of that intent
(`entry(..).or_insert_with(HashSet::new).insert(..)`). -/
def applyIntents (sc : ServiceConfiguration) :
    ChangeMap → IntentMap → List IntentConfiguration → Option (ChangeMap × IntentMap)
  | changes, byIntent, [] => some (changes, byIntent)
  | changes, byIntent, ic :: rest =>
    let step : Option ChangeMap :=
      match mapLookup byIntent ic with
      | some _ => transition changes ic .Modify
      | none => transition changes ic .Add
    match step with
    | none => none
    | some changes2 =>
      let byIntent2 := mapInsert byIntent ic (setInsert ((mapLookup byIntent ic).getD []) sc)
      applyIntents sc changes2 byIntent2 rest

/-- Embeds the batch construction of `TransactionalRegistryUpdate::observe`:
each recorded transition is materialised against the post-mutation
by-intent index; the indexing `registry.external_services_by_intent[intent]`
panics (`none`) when the intent has no entry. -/
def observeChanges : ChangeMap → IntentMap → Option (List Change)
  | [], _ => some []
  | (ic, kind) :: rest, byIntent =>
    let head : Option Change :=
      match kind with
      | .Add => (mapLookup byIntent ic).map (Change.Add ic)
      | .Modify => (mapLookup byIntent ic).map (Change.Modify ic)
      | .Remove => some (Change.Remove ic)
    match head, observeChanges rest byIntent with
    | some c, some cs => some (c :: cs)
    | _, _ => none

/-- Embeds the state of `Registry<T>` (the observer itself is factored out
into the result of `upsert`). -/
structure Registry where
  external_services_by_intent : IntentMap
  known_services : List ServiceConfiguration
deriving DecidableEq, Repr

/-- Embeds `Registry::new`. -/
def Registry.new : Registry := ⟨[], []⟩

/-- Embeds `Registry::has_service`. -/
def has_service (r : Registry) (key : ServiceConfiguration) : Bool :=
  decide (key ∈ r.known_services)

/-- Outcome of one `upsert` call: `fatal` is a Rust panic, `err` the
protected-namespace rejection (carrying the untouched registry), and
`ok` carries the new registry state together with the list of
`Observer::on_change` invocations made by the call (each invocation
carries its change batch). -/
inductive UpsertResult where
  | fatal
  | err (r : Registry)
  | ok (r : Registry) (notifications : List (List Change))
deriving DecidableEq, Repr

/-- Embeds `Registry::upsert`, following the source order: namespace
validation, prune by-intent bindings, prune known services, apply new
bindings, re-insert the configuration, observe. -/
def upsert (r : Registry) (service_configuration : ServiceConfiguration)
    (intent_configurations : List IntentConfiguration) : UpsertResult :=
  if intent_configurations.any (fun ic => isReservedNamespace ic.ns) then
    .err r
  else
    match pruneByIntent service_configuration.id [] r.external_services_by_intent with
    | none => .fatal
    | some (changes1, byIntent1) =>
      let known1 := r.known_services.filter fun s => decide (s.id ≠ service_configuration.id)
      match applyIntents service_configuration changes1 byIntent1 intent_configurations with
      | none => .fatal
      | some (changes2, byIntent2) =>
        let known2 := setInsert known1 service_configuration
        match observeChanges changes2 byIntent2 with
        | none => .fatal
        | some batch =>
          .ok ⟨byIntent2, known2⟩ (if batch.length > 0 then [batch] else [])

/-! ### Well-formedness of a registry state

These are the structural facts that hold of the Rust `HashMap`/`HashSet`
representation by construction (unique keys, no duplicate members)
together with the documented registry invariants (no empty by-intent
entry; at most one known configuration per service id; by-intent services
backed by a known service of the same id). -/

/-- Well-formed registry state. -/
def WF (r : Registry) : Prop :=
  (r.external_services_by_intent.map Prod.fst).Nodup ∧
  (∀ p ∈ r.external_services_by_intent, p.2 ≠ []) ∧
  (r.known_services.map ServiceConfiguration.id).Nodup ∧
  (∀ p ∈ r.external_services_by_intent, ∀ s ∈ p.2, ∃ k ∈ r.known_services, k.id = s.id)

instance (r : Registry) : Decidable (WF r) := by
  unfold WF; infer_instance

/-! ### Association-list and set lemmas -/

theorem mapLookup_mapInsert {β : Type} (m : List (IntentConfiguration × β))
    (k k' : IntentConfiguration) (v : β) :
    mapLookup (mapInsert m k v) k' = if k = k' then some v else mapLookup m k' := by
  induction m with
  | nil => simp [mapInsert, mapLookup]
  | cons p rest ih =>
    obtain ⟨k₀, v₀⟩ := p
    by_cases h : k₀ = k
    · subst h
      simp only [mapInsert, if_pos rfl, mapLookup]
      by_cases h' : k₀ = k'
      · simp [h']
      · simp [h', mapLookup]
    · simp only [mapInsert, if_neg h, mapLookup]
      by_cases h' : k₀ = k'
      · subst h'
        have : ¬ k = k₀ := fun hc => h hc.symm
        simp [this]
      · simp [h', ih]

theorem mapLookup_eq_none_iff {β : Type} (m : List (IntentConfiguration × β))
    (k : IntentConfiguration) :
    mapLookup m k = none ↔ k ∉ m.map Prod.fst := by
  induction m with
  | nil => simp [mapLookup]
  | cons p rest ih =>
    obtain ⟨k₀, v₀⟩ := p
    by_cases h : k₀ = k
    · subst h; simp [mapLookup]
    · simp only [mapLookup, if_neg h, List.map_cons, List.mem_cons]
      rw [ih]
      constructor
      · intro hn hc
        rcases hc with rfl | hc
        · exact h rfl
        · exact hn hc
      · intro hn hc
        exact hn (Or.inr hc)

theorem mapLookup_isSome_iff {β : Type} (m : List (IntentConfiguration × β))
    (k : IntentConfiguration) :
    (mapLookup m k).isSome ↔ k ∈ m.map Prod.fst := by
  rw [← not_iff_not, Option.not_isSome_iff_eq_none, mapLookup_eq_none_iff]

theorem mapLookup_mem {β : Type} {m : List (IntentConfiguration × β)}
    {k : IntentConfiguration} {v : β} (h : mapLookup m k = some v) : (k, v) ∈ m := by
  induction m with
  | nil => simp [mapLookup] at h
  | cons p rest ih =>
    obtain ⟨k₀, v₀⟩ := p
    by_cases hk : k₀ = k
    · subst hk
      unfold mapLookup at h
      rw [if_pos rfl] at h
      injection h with h
      exact h ▸ List.mem_cons_self _ _
    · simp only [mapLookup, if_neg hk] at h
      exact List.mem_cons_of_mem _ (ih h)

theorem mem_mapInsert {β : Type} {m : List (IntentConfiguration × β)}
    {k : IntentConfiguration} {v : β} {p : IntentConfiguration × β}
    (h : p ∈ mapInsert m k v) : p ∈ m ∨ p = (k, v) := by
  induction m with
  | nil => simpa [mapInsert] using h
  | cons q rest ih =>
    obtain ⟨k₀, v₀⟩ := q
    by_cases hk : k₀ = k
    · subst hk
      simp only [mapInsert, if_pos rfl] at h
      rcases List.mem_cons.mp h with h | h
      · exact Or.inr h
      · exact Or.inl (List.mem_cons_of_mem _ h)
    · simp only [mapInsert, if_neg hk] at h
      rcases List.mem_cons.mp h with h | h
      · exact Or.inl (h ▸ List.mem_cons_self _ _)
      · rcases ih h with h | h
        · exact Or.inl (List.mem_cons_of_mem _ h)
        · exact Or.inr h

theorem keys_mapInsert_subset {β : Type} {m : List (IntentConfiguration × β)}
    {k k' : IntentConfiguration} {v : β}
    (h : k' ∈ (mapInsert m k v).map Prod.fst) : k' ∈ m.map Prod.fst ∨ k' = k := by
  rcases List.mem_map.mp h with ⟨p, hp, hfst⟩
  rcases mem_mapInsert hp with hmem | rfl
  · exact Or.inl (hfst ▸ List.mem_map_of_mem Prod.fst hmem)
  · exact Or.inr hfst.symm

theorem nodup_keys_mapInsert {β : Type} {m : List (IntentConfiguration × β)}
    (k : IntentConfiguration) (v : β) (h : (m.map Prod.fst).Nodup) :
    ((mapInsert m k v).map Prod.fst).Nodup := by
  induction m with
  | nil => simp [mapInsert]
  | cons p rest ih =>
    obtain ⟨k₀, v₀⟩ := p
    simp only [List.map_cons, List.nodup_cons] at h
    by_cases hk : k₀ = k
    · subst hk
      simpa [mapInsert, List.nodup_cons] using h
    · simp only [mapInsert, if_neg hk, List.map_cons, List.nodup_cons]
      refine ⟨fun hc => ?_, ih h.2⟩
      rcases keys_mapInsert_subset hc with hc | hc
      · exact h.1 hc
      · exact hk hc

theorem mem_setInsert (s : List ServiceConfiguration) (x y : ServiceConfiguration) :
    x ∈ setInsert s y ↔ x ∈ s ∨ x = y := by
  unfold setInsert
  by_cases h : y ∈ s
  · simp only [if_pos h]
    constructor
    · exact Or.inl
    · rintro (hx | rfl) <;> [exact hx; exact h]
  · simp [if_neg h]

theorem setInsert_ne_nil (s : List ServiceConfiguration) (x : ServiceConfiguration) :
    setInsert s x ≠ [] := by
  intro h
  have : x ∈ setInsert s x := (mem_setInsert s x x).mpr (Or.inr rfl)
  rw [h] at this
  exact List.not_mem_nil x this

/-! ### Transition lemmas (the merge table) -/

theorem transition_of_lookup_none {m : ChangeMap} {i : IntentConfiguration}
    (t : ChangeKind) (h : mapLookup m i = none) :
    transition m i t = some (mapInsert m i t) := by
  unfold transition; rw [h]

theorem transition_remove_add {m : ChangeMap} {i : IntentConfiguration}
    (h : mapLookup m i = some .Remove) :
    transition m i .Add = some (mapInsert m i .Modify) := by
  unfold transition; rw [h]

theorem transition_modify_modify {m : ChangeMap} {i : IntentConfiguration}
    (h : mapLookup m i = some .Modify) :
    transition m i .Modify = some (mapInsert m i .Modify) := by
  unfold transition; rw [h]

theorem transition_add_modify {m : ChangeMap} {i : IntentConfiguration}
    (h : mapLookup m i = some .Add) :
    transition m i .Modify = some (mapInsert m i .Add) := by
  unfold transition; rw [h]

/-- Every successful transition is an insert of some resolved kind. -/
theorem transition_eq_mapInsert {m m' : ChangeMap} {i : IntentConfiguration}
    {t : ChangeKind} (h : transition m i t = some m') :
    ∃ t', m' = mapInsert m i t' := by
  unfold transition at h
  rcases hl : mapLookup m i with _ | k
  · rw [hl] at h
    exact ⟨t, (Option.some.injEq _ _ ▸ h).symm⟩
  · rw [hl] at h
    cases k <;> cases t <;> simp_all <;> exact ⟨_, h.symm⟩

theorem transition_lookup_ne {m m' : ChangeMap} {i j : IntentConfiguration}
    {t : ChangeKind} (h : transition m i t = some m') (hne : i ≠ j) :
    mapLookup m' j = mapLookup m j := by
  rcases transition_eq_mapInsert h with ⟨t', rfl⟩
  rw [mapLookup_mapInsert, if_neg hne]

theorem transition_nodup {m m' : ChangeMap} {i : IntentConfiguration}
    {t : ChangeKind} (h : transition m i t = some m')
    (hnd : (m.map Prod.fst).Nodup) : (m'.map Prod.fst).Nodup := by
  rcases transition_eq_mapInsert h with ⟨t', rfl⟩
  exact nodup_keys_mapInsert _ _ hnd

/-! ### Characterisation of the prune phase -/

/-- Closed form of the by-intent index after pruning: filter every set,
drop emptied entries. -/
def pruneState (sid : ServiceId) : IntentMap → IntentMap
  | [] => []
  | (ic, ss) :: rest =>
    if (pruneFilter sid ss).isEmpty then pruneState sid rest
    else (ic, pruneFilter sid ss) :: pruneState sid rest

/-- Closed form of the transition the prune phase records for one intent:
`Remove` when the entry was emptied, `Modify` when it shrank but
survived, nothing when it was untouched or absent. -/
def pruneMark (sid : ServiceId) (b : IntentMap) (ic : IntentConfiguration) :
    Option ChangeKind :=
  match mapLookup b ic with
  | none => none
  | some ss =>
    if (pruneFilter sid ss).length = ss.length then none
    else if (pruneFilter sid ss).isEmpty then some .Remove else some .Modify

/-- First-component fallback used to state the prune characterisation. -/
def oElse (a b : Option ChangeKind) : Option ChangeKind :=
  match a with
  | some k => some k
  | none => b

theorem mapLookup_of_mem_nodup {β : Type} {m : List (IntentConfiguration × β)}
    (hnd : (m.map Prod.fst).Nodup) {p : IntentConfiguration × β} (hp : p ∈ m) :
    mapLookup m p.1 = some p.2 := by
  induction m with
  | nil => cases hp
  | cons q rest ih =>
    obtain ⟨k₀, v₀⟩ := q
    simp only [List.map_cons, List.nodup_cons] at hnd
    rcases List.mem_cons.mp hp with rfl | hp
    · simp [mapLookup]
    · have hne : ¬ k₀ = p.1 := by
        intro hc
        exact hnd.1 (hc ▸ List.mem_map_of_mem Prod.fst hp)
      simp only [mapLookup, if_neg hne]
      exact ih hnd.2 hp

theorem eq_nil_of_lookup_none {β : Type} {m : List (IntentConfiguration × β)}
    (h : ∀ ic, mapLookup m ic = none) : m = [] := by
  cases m with
  | nil => rfl
  | cons p rest =>
    have := h p.1
    simp [mapLookup] at this

theorem keys_pruneState_subset {sid : ServiceId} {b : IntentMap}
    {k : IntentConfiguration} (h : k ∈ (pruneState sid b).map Prod.fst) :
    k ∈ b.map Prod.fst := by
  induction b with
  | nil => simp [pruneState] at h
  | cons p rest ih =>
    obtain ⟨ic, ss⟩ := p
    by_cases he : (pruneFilter sid ss).isEmpty
    · simp only [pruneState, if_pos he] at h
      simp only [List.map_cons, List.mem_cons]
      exact Or.inr (ih h)
    · simp only [pruneState, if_neg he, List.map_cons, List.mem_cons] at h ⊢
      rcases h with h | h
      · exact Or.inl h
      · exact Or.inr (ih h)

theorem mapLookup_pruneState {sid : ServiceId} {b : IntentMap}
    (hnd : (b.map Prod.fst).Nodup) (ic : IntentConfiguration) :
    mapLookup (pruneState sid b) ic =
      match mapLookup b ic with
      | none => none
      | some ss =>
        if (pruneFilter sid ss).isEmpty then none else some (pruneFilter sid ss) := by
  induction b with
  | nil => simp [pruneState, mapLookup]
  | cons p rest ih =>
    obtain ⟨k₀, ss₀⟩ := p
    simp only [List.map_cons, List.nodup_cons] at hnd
    by_cases hk : k₀ = ic
    · subst hk
      have hrest : mapLookup rest k₀ = none :=
        (mapLookup_eq_none_iff rest k₀).mpr hnd.1
      by_cases he : (pruneFilter sid ss₀).isEmpty
      · simp only [pruneState, if_pos he, mapLookup, if_pos rfl]
        rw [ih hnd.2, hrest]
        simp [he]
      · simp [pruneState, if_neg he, mapLookup, he]
    · by_cases he : (pruneFilter sid ss₀).isEmpty
      · simp only [pruneState, if_pos he, mapLookup, if_neg hk]
        exact ih hnd.2
      · simp only [pruneState, if_neg he, mapLookup, if_neg hk]
        exact ih hnd.2

theorem nodup_keys_pruneState (sid : ServiceId) {b : IntentMap}
    (hnd : (b.map Prod.fst).Nodup) : ((pruneState sid b).map Prod.fst).Nodup := by
  induction b with
  | nil => simp [pruneState]
  | cons p rest ih =>
    obtain ⟨ic, ss⟩ := p
    simp only [List.map_cons, List.nodup_cons] at hnd
    by_cases he : (pruneFilter sid ss).isEmpty
    · simp only [pruneState, if_pos he]
      exact ih hnd.2
    · simp only [pruneState, if_neg he, List.map_cons, List.nodup_cons]
      exact ⟨fun hc => hnd.1 (keys_pruneState_subset hc), ih hnd.2⟩

theorem mem_pruneState {sid : ServiceId} {b : IntentMap}
    {p : IntentConfiguration × List ServiceConfiguration}
    (h : p ∈ pruneState sid b) :
    ∃ ss₀, (p.1, ss₀) ∈ b ∧ p.2 = pruneFilter sid ss₀ ∧ p.2 ≠ [] := by
  induction b with
  | nil => cases h
  | cons q rest ih =>
    obtain ⟨ic, ss⟩ := q
    by_cases he : (pruneFilter sid ss).isEmpty
    · simp only [pruneState, if_pos he] at h
      rcases ih h with ⟨ss₀, hmem, hfil, hne⟩
      exact ⟨ss₀, List.mem_cons_of_mem _ hmem, hfil, hne⟩
    · simp only [pruneState, if_neg he] at h
      rcases List.mem_cons.mp h with rfl | h
      · refine ⟨ss, List.mem_cons_self _ _, rfl, ?_⟩
        simpa [List.isEmpty_iff] using he
      · rcases ih h with ⟨ss₀, hmem, hfil, hne⟩
        exact ⟨ss₀, List.mem_cons_of_mem _ hmem, hfil, hne⟩

theorem oElse_none (b : Option ChangeKind) : oElse none b = b := rfl

theorem oElse_some (k : ChangeKind) (b : Option ChangeKind) :
    oElse (some k) b = some k := rfl

theorem pruneMark_cons_ne {sid : ServiceId} {ic₀ ic : IntentConfiguration}
    {ss : List ServiceConfiguration} {rest : IntentMap} (hne : ¬ ic₀ = ic) :
    pruneMark sid ((ic₀, ss) :: rest) ic = pruneMark sid rest ic := by
  unfold pruneMark
  rw [mapLookup, if_neg hne]

theorem pruneMark_of_lookup_none {sid : ServiceId} {b : IntentMap}
    {ic : IntentConfiguration} (h : mapLookup b ic = none) :
    pruneMark sid b ic = none := by
  unfold pruneMark
  rw [h]

theorem pruneByIntent_spec (sid : ServiceId) (b : IntentMap) :
    ∀ chg₀ : ChangeMap,
      (b.map Prod.fst).Nodup →
      (chg₀.map Prod.fst).Nodup →
      (∀ p ∈ b, mapLookup chg₀ p.1 = none) →
      ∃ chg, pruneByIntent sid chg₀ b = some (chg, pruneState sid b) ∧
        (chg.map Prod.fst).Nodup ∧
        ∀ ic, mapLookup chg ic = oElse (pruneMark sid b ic) (mapLookup chg₀ ic) := by
  induction b with
  | nil =>
    intro chg₀ _ hc _
    refine ⟨chg₀, rfl, hc, fun ic => ?_⟩
    simp [pruneMark, mapLookup, oElse]
  | cons p rest ih =>
    obtain ⟨ic₀, ss⟩ := p
    intro chg₀ hnd hc h0
    simp only [List.map_cons, List.nodup_cons] at hnd
    have hrest₀ : mapLookup rest ic₀ = none :=
      (mapLookup_eq_none_iff rest ic₀).mpr hnd.1
    have hlk : mapLookup ((ic₀, ss) :: rest) ic₀ = some ss := by
      rw [mapLookup, if_pos rfl]
    by_cases hlen : ss.length ≠ (pruneFilter sid ss).length
    · -- the entry shrank: a Remove or Modify transition is recorded
      have hch : mapLookup chg₀ ic₀ = none := h0 (ic₀, ss) (List.mem_cons_self _ _)
      have hmain : ∀ mk : ChangeKind,
          (if ss.length ≠ (pruneFilter sid ss).length then
             match (pruneFilter sid ss).length with
             | 0 => transition chg₀ ic₀ .Remove
             | _ + 1 => transition chg₀ ic₀ .Modify
           else some chg₀) = some (mapInsert chg₀ ic₀ mk) →
          pruneMark sid ((ic₀, ss) :: rest) ic₀ = some mk →
          ∃ chg, pruneByIntent sid chg₀ ((ic₀, ss) :: rest) =
              some (chg, pruneState sid ((ic₀, ss) :: rest)) ∧
            (chg.map Prod.fst).Nodup ∧
            ∀ ic, mapLookup chg ic =
              oElse (pruneMark sid ((ic₀, ss) :: rest) ic) (mapLookup chg₀ ic) := by
        intro mk hstep hmark2
        have h0' : ∀ q ∈ rest, mapLookup (mapInsert chg₀ ic₀ mk) q.1 = none := by
          intro q hq
          rw [mapLookup_mapInsert]
          have hne : ¬ ic₀ = q.1 := fun hcon =>
            hnd.1 (hcon ▸ List.mem_map_of_mem Prod.fst hq)
          rw [if_neg hne]
          exact h0 q (List.mem_cons_of_mem _ hq)
        obtain ⟨chg, hpr, hcn, hlook⟩ :=
          ih (mapInsert chg₀ ic₀ mk) hnd.2 (nodup_keys_mapInsert _ _ hc) h0'
        refine ⟨chg, ?_, hcn, ?_⟩
        · simp only [pruneByIntent, hstep, hpr]
          by_cases hFe : (pruneFilter sid ss).isEmpty
          · simp [pruneState, hFe]
          · simp [pruneState, hFe]
        · intro ic
          rw [hlook ic]
          by_cases hic : ic = ic₀
          · subst hic
            rw [pruneMark_of_lookup_none hrest₀, hmark2, oElse_none, oElse_some,
              mapLookup_mapInsert, if_pos rfl]
          · rw [pruneMark_cons_ne (fun hcon => hic hcon.symm),
              mapLookup_mapInsert, if_neg (fun hcon => hic hcon.symm)]
      by_cases hFe : (pruneFilter sid ss).isEmpty
      · refine hmain .Remove ?_ ?_
        · rw [if_pos hlen]
          have hFl : (pruneFilter sid ss).length = 0 := by
            simp [List.isEmpty_iff.mp hFe]
          rw [hFl]
          exact transition_of_lookup_none _ hch
        · simp only [pruneMark, hlk]
          rw [if_neg (fun hcon : (pruneFilter sid ss).length = ss.length =>
            hlen hcon.symm), if_pos hFe]
      · refine hmain .Modify ?_ ?_
        · rw [if_pos hlen]
          have hFl : (pruneFilter sid ss).length ≠ 0 := by
            intro hcon
            exact hFe (by simp [List.isEmpty_iff, List.length_eq_zero.mp hcon])
          rcases hn : (pruneFilter sid ss).length with _ | n
          · exact absurd hn hFl
          · exact transition_of_lookup_none _ hch
        · simp only [pruneMark, hlk]
          rw [if_neg (fun hcon : (pruneFilter sid ss).length = ss.length =>
            hlen hcon.symm), if_neg hFe]
    · -- the entry was untouched: no transition, entry kept as-is
      push_neg at hlen
      have hF : pruneFilter sid ss = ss := by
        have hsub := List.filter_sublist (l := ss) (p := fun s => decide (s.id ≠ sid))
        exact hsub.eq_of_length hlen.symm
      obtain ⟨chg, hpr, hcn, hlook⟩ :=
        ih chg₀ hnd.2 hc (fun q hq => h0 q (List.mem_cons_of_mem _ hq))
      refine ⟨chg, ?_, hcn, ?_⟩
      · have hcond : ¬ ss.length ≠ (pruneFilter sid ss).length := by omega
        simp only [pruneByIntent, if_neg hcond, hpr]
        by_cases hFe : (pruneFilter sid ss).isEmpty
        · simp [pruneState, hFe]
        · simp [pruneState, hFe]
      · intro ic
        rw [hlook ic]
        by_cases hic : ic = ic₀
        · subst hic
          rw [pruneMark_of_lookup_none hrest₀]
          have hmark2 : pruneMark sid ((ic, ss) :: rest) ic = none := by
            simp only [pruneMark, hlk]
            rw [if_pos hlen.symm]
          rw [hmark2]
        · rw [pruneMark_cons_ne (fun hcon => hic hcon.symm)]

/-! ### The transaction invariant

Relative to the pre-call by-intent index `pre`, the pending transition
recorded for an intent determines whether the intent is currently bound
(`b`) and whether it was bound before the call.  This is the invariant
that makes the `panic!` branch of `transition` unreachable. -/

/-- Invariant linking the change map, the current by-intent index and the
pre-call by-intent index. -/
def Inv (pre : IntentMap) (chg : ChangeMap) (b : IntentMap) : Prop :=
  ∀ ic,
    (mapLookup chg ic = some .Remove →
      (mapLookup pre ic).isSome = true ∧ mapLookup b ic = none) ∧
    (mapLookup chg ic = some .Modify →
      (mapLookup pre ic).isSome = true ∧ (mapLookup b ic).isSome = true) ∧
    (mapLookup chg ic = some .Add →
      mapLookup pre ic = none ∧ (mapLookup b ic).isSome = true) ∧
    (mapLookup chg ic = none →
      (mapLookup b ic).isSome = (mapLookup pre ic).isSome)

theorem inv_after_prune {sid : ServiceId} {pre : IntentMap} {chg : ChangeMap}
    (hnd : (pre.map Prod.fst).Nodup) (hne : ∀ p ∈ pre, p.2 ≠ [])
    (hlook : ∀ ic, mapLookup chg ic = pruneMark sid pre ic) :
    Inv pre chg (pruneState sid pre) := by
  intro ic
  rw [hlook ic] at *
  have hb := @mapLookup_pruneState sid pre hnd ic
  rcases hpre : mapLookup pre ic with _ | ss
  · simp only [hpre] at hb
    have hmark : pruneMark sid pre ic = none := pruneMark_of_lookup_none hpre
    refine ⟨?_, ?_, ?_, ?_⟩ <;> intro h <;> rw [hmark] at h
    · cases h
    · cases h
    · cases h
    · rw [hb]
  · simp only [hpre] at hb
    have hssne : ss ≠ [] := hne (ic, ss) (mapLookup_mem hpre)
    have hmark : pruneMark sid pre ic =
        (if (pruneFilter sid ss).length = ss.length then none
         else if (pruneFilter sid ss).isEmpty then some .Remove
         else some .Modify) := by
      simp only [pruneMark, hpre]
    by_cases hshr : (pruneFilter sid ss).length = ss.length
    · have hF : pruneFilter sid ss = ss := by
        have hsub := List.filter_sublist (l := ss) (p := fun s => decide (s.id ≠ sid))
        exact hsub.eq_of_length hshr
      rw [if_pos hshr] at hmark
      have hFe : ¬ (pruneFilter sid ss).isEmpty := by
        rw [hF]
        simpa [List.isEmpty_iff] using hssne
      rw [if_neg hFe] at hb
      refine ⟨?_, ?_, ?_, ?_⟩ <;> intro h <;> rw [hmark] at h
      · cases h
      · cases h
      · cases h
      · rw [hb]
        rfl
    · rw [if_neg hshr] at hmark
      by_cases hFe : (pruneFilter sid ss).isEmpty
      · rw [if_pos hFe] at hmark
        rw [if_pos hFe] at hb
        refine ⟨?_, ?_, ?_, ?_⟩ <;> intro h <;> rw [hmark] at h
        · exact ⟨rfl, hb⟩
        · cases h
        · cases h
        · cases h
      · rw [if_neg hFe] at hmark
        rw [if_neg hFe] at hb
        refine ⟨?_, ?_, ?_, ?_⟩ <;> intro h <;> rw [hmark] at h
        · cases h
        · exact ⟨rfl, by rw [hb]; rfl⟩
        · cases h
        · cases h

theorem inv_update {pre : IntentMap} {chg : ChangeMap} {b : IntentMap}
    {ic₀ : IntentConfiguration} {k' : ChangeKind}
    (ss₂ : List ServiceConfiguration) (hInv : Inv pre chg b)
    (hcase : (k' = .Modify ∧ (mapLookup pre ic₀).isSome = true) ∨
             (k' = .Add ∧ mapLookup pre ic₀ = none)) :
    Inv pre (mapInsert chg ic₀ k') (mapInsert b ic₀ ss₂) := by
  intro ic
  by_cases hic : ic₀ = ic
  · subst hic
    refine ⟨?_, ?_, ?_, ?_⟩ <;> intro h <;>
      rw [mapLookup_mapInsert, if_pos rfl] at h
    · injection h with h
      rcases hcase with ⟨rfl, _⟩ | ⟨rfl, _⟩ <;> cases h
    · rw [mapLookup_mapInsert, if_pos rfl]
      injection h with h
      rcases hcase with ⟨rfl, hpre⟩ | ⟨rfl, _⟩
      · exact ⟨hpre, rfl⟩
      · cases h
    · rw [mapLookup_mapInsert, if_pos rfl]
      injection h with h
      rcases hcase with ⟨rfl, _⟩ | ⟨rfl, hpre⟩
      · cases h
      · exact ⟨hpre, rfl⟩
    · cases h
  · have h₁ : mapLookup (mapInsert chg ic₀ k') ic = mapLookup chg ic := by
      rw [mapLookup_mapInsert, if_neg hic]
    have h₂ : mapLookup (mapInsert b ic₀ ss₂) ic = mapLookup b ic := by
      rw [mapLookup_mapInsert, if_neg hic]
    rw [h₁, h₂]
    exact hInv ic

theorem apply_step_transition {pre : IntentMap} {chg : ChangeMap} {b : IntentMap}
    (ic₀ : IntentConfiguration) (hInv : Inv pre chg b) :
    ∃ k', (match mapLookup b ic₀ with
           | some _ => transition chg ic₀ .Modify
           | none => transition chg ic₀ .Add) = some (mapInsert chg ic₀ k') ∧
      ((k' = ChangeKind.Modify ∧ (mapLookup pre ic₀).isSome = true) ∨
       (k' = ChangeKind.Add ∧ mapLookup pre ic₀ = none)) := by
  rcases hL : mapLookup b ic₀ with _ | ss
  · rcases hm : mapLookup chg ic₀ with _ | k
    · refine ⟨.Add, ?_, Or.inr ⟨rfl, ?_⟩⟩
      · simp only [transition_of_lookup_none _ hm]
      · have h4 := (hInv ic₀).2.2.2 hm
        rw [hL] at h4
        exact Option.not_isSome_iff_eq_none.mp (by rw [← h4]; simp)
    · cases k
      · have := (hInv ic₀).2.2.1 hm
        rw [hL] at this
        cases this.2
      · refine ⟨.Modify, ?_, Or.inl ⟨rfl, ((hInv ic₀).1 hm).1⟩⟩
        simp only [transition_remove_add hm]
      · have := (hInv ic₀).2.1 hm
        rw [hL] at this
        cases this.2
  · rcases hm : mapLookup chg ic₀ with _ | k
    · refine ⟨.Modify, ?_, Or.inl ⟨rfl, ?_⟩⟩
      · simp only [transition_of_lookup_none _ hm]
      · have h4 := (hInv ic₀).2.2.2 hm
        rw [hL] at h4
        exact h4.symm
    · cases k
      · refine ⟨.Add, ?_, Or.inr ⟨rfl, ((hInv ic₀).2.2.1 hm).1⟩⟩
        simp only [transition_add_modify hm]
      · have := (hInv ic₀).1 hm
        rw [hL] at this
        cases this.2
      · refine ⟨.Modify, ?_, Or.inl ⟨rfl, ((hInv ic₀).2.1 hm).1⟩⟩
        simp only [transition_modify_modify hm]

theorem applyIntents_spec (sc : ServiceConfiguration) (pre : IntentMap)
    (ics : List IntentConfiguration) :
    ∀ (chg : ChangeMap) (b : IntentMap),
      Inv pre chg b →
      (chg.map Prod.fst).Nodup →
      (b.map Prod.fst).Nodup →
      (∀ p ∈ b, p.2 ≠ []) →
      ∃ chg' b', applyIntents sc chg b ics = some (chg', b') ∧
        Inv pre chg' b' ∧
        (chg'.map Prod.fst).Nodup ∧
        (b'.map Prod.fst).Nodup ∧
        (∀ p ∈ b', p.2 ≠ []) ∧
        (∀ x, x ≠ sc → ∀ ic,
          (x ∈ (mapLookup b' ic).getD []) ↔ (x ∈ (mapLookup b ic).getD [])) ∧
        (∀ p ∈ b', ∀ s ∈ p.2, (∃ q ∈ b, s ∈ q.2) ∨ s = sc) := by
  induction ics with
  | nil =>
    intro chg b hInv hcn hbn hne
    exact ⟨chg, b, rfl, hInv, hcn, hbn, hne, fun x _ ic => Iff.rfl,
      fun p hp s hs => Or.inl ⟨p, hp, hs⟩⟩
  | cons ic₀ rest ih =>
    intro chg b hInv hcn hbn hne
    obtain ⟨k', hstep, hcase⟩ := apply_step_transition ic₀ hInv
    have hInv₂ : Inv pre (mapInsert chg ic₀ k')
        (mapInsert b ic₀ (setInsert ((mapLookup b ic₀).getD []) sc)) :=
      inv_update _ hInv hcase
    have hne₂ : ∀ p ∈ mapInsert b ic₀ (setInsert ((mapLookup b ic₀).getD []) sc),
        p.2 ≠ [] := by
      intro p hp
      rcases mem_mapInsert hp with hp | rfl
      · exact hne p hp
      · exact setInsert_ne_nil _ _
    obtain ⟨chg', b', happ, hInv', hcn', hbn', hne', hframe, hcons⟩ :=
      ih (mapInsert chg ic₀ k')
        (mapInsert b ic₀ (setInsert ((mapLookup b ic₀).getD []) sc)) hInv₂
        (nodup_keys_mapInsert ic₀ k' hcn) (nodup_keys_mapInsert ic₀ _ hbn) hne₂
    refine ⟨chg', b', ?_, hInv', hcn', hbn', hne', ?_, ?_⟩
    · simp only [applyIntents, hstep, happ]
    · intro x hx ic
      rw [hframe x hx ic]
      by_cases hic : ic₀ = ic
      · subst hic
        rw [mapLookup_mapInsert, if_pos rfl, Option.getD_some, mem_setInsert]
        constructor
        · intro h
          rcases h with h | rfl
          · exact h
          · exact absurd rfl hx
        · exact Or.inl
      · rw [mapLookup_mapInsert, if_neg hic]
    · intro p hp s hs
      rcases hcons p hp s hs with ⟨q, hq, hsq⟩ | rfl
      · rcases mem_mapInsert hq with hq | rfl
        · exact Or.inl ⟨q, hq, hsq⟩
        · rcases (mem_setInsert _ _ _).mp hsq with hmem | rfl
          · rcases hL : mapLookup b ic₀ with _ | ss
            · rw [hL, Option.getD_none] at hmem
              cases hmem
            · rw [hL, Option.getD_some] at hmem
              exact Or.inl ⟨(ic₀, ss), mapLookup_mem hL, hmem⟩
          · exact Or.inr rfl
      · exact Or.inr rfl

/-- The change that `observe` materialises for one recorded transition,
reading the post-mutation by-intent index. -/
def matChange (b : IntentMap) : IntentConfiguration × ChangeKind → Change
  | (ic, .Add) => .Add ic ((mapLookup b ic).getD [])
  | (ic, .Modify) => .Modify ic ((mapLookup b ic).getD [])
  | (ic, .Remove) => .Remove ic

theorem intentOf_matChange (b : IntentMap) (p : IntentConfiguration × ChangeKind) :
    (matChange b p).intentOf = p.1 := by
  obtain ⟨ic, k⟩ := p
  cases k <;> rfl

theorem observeChanges_spec (b : IntentMap) : ∀ chg : ChangeMap,
    (∀ p ∈ chg, p.2 = ChangeKind.Remove ∨ (mapLookup b p.1).isSome = true) →
    observeChanges chg b = some (chg.map (matChange b)) := by
  intro chg
  induction chg with
  | nil => intro _; rfl
  | cons p rest ih =>
    intro h
    obtain ⟨ic, kind⟩ := p
    have hrest := ih fun q hq => h q (List.mem_cons_of_mem _ hq)
    have hk := h (ic, kind) (List.mem_cons_self _ _)
    cases kind
    · have hs : (mapLookup b ic).isSome = true := by
        rcases hk with hk | hk
        · cases hk
        · exact hk
      rcases hL : mapLookup b ic with _ | ss
      · rw [hL] at hs
        cases hs
      · simp [observeChanges, hL, hrest, matChange]
    · simp [observeChanges, hrest, matChange]
    · have hs : (mapLookup b ic).isSome = true := by
        rcases hk with hk | hk
        · cases hk
        · exact hk
      rcases hL : mapLookup b ic with _ | ss
      · rw [hL] at hs
        cases hs
      · simp [observeChanges, hL, hrest, matChange]

theorem oElse_none_right (a : Option ChangeKind) : oElse a none = a := by
  cases a <;> rfl

/-- The post-state notification list built by `observe`. -/
def observedBatch (chg : ChangeMap) (b : IntentMap) : List (List Change) :=
  if (chg.map (matChange b)).length > 0 then [chg.map (matChange b)] else []

/-- Master characterisation of a non-rejected `upsert` call: the call
cannot panic, the by-intent index is the apply-phase result over the
pruned index, the known-services set is filter-then-insert, the
notifications are the materialised change map, and the transaction
invariant holds of the final change map. -/
theorem upsert_ok_shape (r : Registry) (sc : ServiceConfiguration)
    (ics : List IntentConfiguration) (hwf : WF r)
    (hres : ics.any (fun ic => isReservedNamespace ic.ns) = false) :
    ∃ chg₂ b₂,
      upsert r sc ics =
        .ok ⟨b₂, setInsert (r.known_services.filter fun s => decide (s.id ≠ sc.id)) sc⟩
          (observedBatch chg₂ b₂) ∧
      Inv r.external_services_by_intent chg₂ b₂ ∧
      (chg₂.map Prod.fst).Nodup ∧
      (b₂.map Prod.fst).Nodup ∧
      (∀ p ∈ b₂, p.2 ≠ []) ∧
      (∀ x, x ≠ sc → ∀ ic, (x ∈ (mapLookup b₂ ic).getD []) ↔
        (x ∈ (mapLookup (pruneState sc.id r.external_services_by_intent) ic).getD [])) ∧
      (∀ p ∈ b₂, ∀ s ∈ p.2,
        (∃ q ∈ pruneState sc.id r.external_services_by_intent, s ∈ q.2) ∨ s = sc) ∧
      (ics = [] →
        (∀ ic, mapLookup chg₂ ic = pruneMark sc.id r.external_services_by_intent ic) ∧
        b₂ = pruneState sc.id r.external_services_by_intent) := by
  obtain ⟨hnd, hne, hkn, hcons⟩ := hwf
  obtain ⟨chg₁, hpr, hcn₁, hlook₁⟩ :=
    pruneByIntent_spec sc.id r.external_services_by_intent [] hnd (by simp)
      (fun p _ => rfl)
  have hlook₁n : ∀ ic, mapLookup chg₁ ic =
      pruneMark sc.id r.external_services_by_intent ic := by
    intro ic
    rw [hlook₁ ic]
    show oElse _ (mapLookup ([] : ChangeMap) ic) = _
    rw [show mapLookup ([] : ChangeMap) ic = none from rfl, oElse_none_right]
  have hInv₁ : Inv r.external_services_by_intent chg₁
      (pruneState sc.id r.external_services_by_intent) :=
    inv_after_prune hnd hne hlook₁n
  have hnePS : ∀ p ∈ pruneState sc.id r.external_services_by_intent, p.2 ≠ [] := by
    intro p hp
    exact (mem_pruneState hp).choose_spec.2.2
  obtain ⟨chg₂, b₂, happ, hInv₂, hcn₂, hbn₂, hne₂, hframe, hmem⟩ :=
    applyIntents_spec sc r.external_services_by_intent ics chg₁
      (pruneState sc.id r.external_services_by_intent) hInv₁ hcn₁
      (nodup_keys_pruneState sc.id hnd) hnePS
  have hobs : observeChanges chg₂ b₂ = some (chg₂.map (matChange b₂)) := by
    apply observeChanges_spec
    intro p hp
    have hl := mapLookup_of_mem_nodup hcn₂ hp
    rcases hk : p.2 with _ | _ | _
    · rw [hk] at hl
      exact Or.inr ((hInv₂ p.1).2.2.1 hl).2
    · exact Or.inl rfl
    · rw [hk] at hl
      exact Or.inr ((hInv₂ p.1).2.1 hl).2
  refine ⟨chg₂, b₂, ?_, hInv₂, hcn₂, hbn₂, hne₂, hframe, hmem, ?_⟩
  · simp only [upsert, hres, Bool.false_eq_true, if_false, hpr, happ, hobs,
      observedBatch]
  · rintro rfl
    have : applyIntents sc chg₁ (pruneState sc.id r.external_services_by_intent) [] =
        some (chg₁, pruneState sc.id r.external_services_by_intent) := rfl
    rw [this] at happ
    injection happ with happ
    injection happ with h1 h2
    subst h1
    subst h2
    exact ⟨hlook₁n, rfl⟩

theorem upsert_err_of_reserved {r : Registry} {sc : ServiceConfiguration}
    {ics : List IntentConfiguration}
    (h : ics.any (fun ic => isReservedNamespace ic.ns) = true) :
    upsert r sc ics = .err r := by
  simp [upsert, h]

theorem upsert_ne_err_of_not_reserved {r : Registry} {sc : ServiceConfiguration}
    {ics : List IntentConfiguration}
    (h : ics.any (fun ic => isReservedNamespace ic.ns) = false) :
    ∀ r₂, upsert r sc ics ≠ .err r₂ := by
  intro r₂
  simp only [upsert, h, Bool.false_eq_true, if_false]
  rcases hp : pruneByIntent sc.id [] r.external_services_by_intent with _ | ⟨chg1, b1⟩
  · simp
  · simp only []
    rcases ha : applyIntents sc chg1 b1 ics with _ | ⟨chg2, b2⟩
    · simp
    · simp only []
      rcases ho : observeChanges chg2 b2 with _ | batch
      · simp
      · simp only []
        split <;> intro hcon <;> cases hcon

theorem upsert_ok_elim {r : Registry} {sc : ServiceConfiguration}
    {ics : List IntentConfiguration} {r' : Registry} {notifs : List (List Change)}
    (hwf : WF r) (hok : upsert r sc ics = .ok r' notifs) :
    ics.any (fun ic => isReservedNamespace ic.ns) = false ∧
    ∃ chg₂ b₂,
      r' = ⟨b₂, setInsert (r.known_services.filter fun s => decide (s.id ≠ sc.id)) sc⟩ ∧
      notifs = observedBatch chg₂ b₂ ∧
      Inv r.external_services_by_intent chg₂ b₂ ∧
      (chg₂.map Prod.fst).Nodup ∧
      (b₂.map Prod.fst).Nodup ∧
      (∀ p ∈ b₂, p.2 ≠ []) ∧
      (∀ x, x ≠ sc → ∀ ic, (x ∈ (mapLookup b₂ ic).getD []) ↔
        (x ∈ (mapLookup (pruneState sc.id r.external_services_by_intent) ic).getD [])) ∧
      (∀ p ∈ b₂, ∀ s ∈ p.2,
        (∃ q ∈ pruneState sc.id r.external_services_by_intent, s ∈ q.2) ∨ s = sc) ∧
      (ics = [] →
        (∀ ic, mapLookup chg₂ ic = pruneMark sc.id r.external_services_by_intent ic) ∧
        b₂ = pruneState sc.id r.external_services_by_intent) := by
  rcases hres : ics.any (fun ic => isReservedNamespace ic.ns) with _ | _
  · obtain ⟨chg₂, b₂, hshape, hrest⟩ := upsert_ok_shape r sc ics hwf hres
    rw [hok] at hshape
    injection hshape with h1 h2
    exact ⟨rfl, chg₂, b₂, h1, h2, hrest⟩
  · rw [upsert_err_of_reserved hres] at hok
    cases hok

theorem upsert_never_fatal (r : Registry) (sc : ServiceConfiguration)
    (ics : List IntentConfiguration) (hwf : WF r) :
    upsert r sc ics ≠ UpsertResult.fatal := by
  rcases hres : ics.any (fun ic => isReservedNamespace ic.ns) with _ | _
  · obtain ⟨chg₂, b₂, hok, _⟩ := upsert_ok_shape r sc ics hwf hres
    rw [hok]
    intro hcon
    cases hcon
  · rw [upsert_err_of_reserved hres]
    intro hcon
    cases hcon

/-! ### Concrete values used by witnesses and counterexamples (mirroring
the builders in the Rust test module) -/

/-- Mirrors `ServiceConfigurationBuilder::new().build()`. -/
def sampleService : ServiceConfiguration :=
  ⟨⟨"mock-service-0", "0.1.0"⟩, "http://service-0", .Cloud⟩

/-- The same identity as `sampleService` with an updated URL. -/
def sampleServiceNewUrl : ServiceConfiguration :=
  ⟨⟨"mock-service-0", "0.1.0"⟩, "http://updated-url", .Cloud⟩

/-- The same name as `sampleService` with a different version. -/
def sampleServiceV2 : ServiceConfiguration :=
  ⟨⟨"mock-service-0", "10.30.40"⟩, "http://service-0", .Cloud⟩

/-- Mirrors `IntentConfigurationBuilder::new().build()`. -/
def sampleIntent : IntentConfiguration := ⟨"namespace-0", .Discover⟩

/-- A second, distinct intent. -/
def sampleIntent2 : IntentConfiguration := ⟨"namespace-2", .Read⟩

/-! ### Claims -/

/-- Claim C2: If `upsert` is rejected because some submitted intent uses a
reserved namespace, the registry is left completely unchanged
(all-or-nothing): the error carries the pre-call state, so `has_service`
and every by-intent binding are identical before and after the call;
validation happens before any mutation. -/
theorem upsert_reject_atomicity (r : Registry) (sc : ServiceConfiguration)
    (ics : List IntentConfiguration)
    (h : ∃ ic ∈ ics, isReservedNamespace ic.ns = true) :
    ∃ r₂, upsert r sc ics = .err r₂ ∧
      (∀ key, has_service r₂ key = has_service r key) ∧
      (∀ ic, mapLookup r₂.external_services_by_intent ic =
        mapLookup r.external_services_by_intent ic) ∧
      r₂.known_services = r.known_services :=
  ⟨r, upsert_err_of_reserved (List.any_eq_true.mpr h),
    fun _ => rfl, fun _ => rfl, rfl⟩

theorem upsert_reject_atomicity_witness :
    ∃ r₂, upsert Registry.new sampleService [⟨"system", .Read⟩] = .err r₂ ∧
      (∀ key, has_service r₂ key = has_service Registry.new key) ∧
      (∀ ic, mapLookup r₂.external_services_by_intent ic =
        mapLookup Registry.new.external_services_by_intent ic) ∧
      r₂.known_services = Registry.new.known_services :=
  upsert_reject_atomicity Registry.new sampleService [⟨"system", .Read⟩]
    ⟨⟨"system", .Read⟩, List.mem_cons_self _ _, by decide⟩

/-- Claim C3: `upsert` returns the protected-namespace error iff some intent
namespace matches `"system"` (ASCII-case-insensitively) or starts with
`"system."` (ASCII-case-insensitively); it returns `Ok` exactly when no
intent is reserved.  The namespaces `"system"`, `"System"`,
`"system.anything"`, `"SYSTEM."` are reserved; `"systemfoo"` is not. -/
theorem upsert_reserved_error_iff (r : Registry) (sc : ServiceConfiguration)
    (ics : List IntentConfiguration) (hwf : WF r) :
    ((upsert r sc ics = .err r) ↔ (∃ ic ∈ ics, isReservedNamespace ic.ns = true)) ∧
    ((∃ r' notifs, upsert r sc ics = .ok r' notifs) ↔
      (∀ ic ∈ ics, isReservedNamespace ic.ns = false)) ∧
    isReservedNamespace "system" = true ∧
    isReservedNamespace "System" = true ∧
    isReservedNamespace "system.anything" = true ∧
    isReservedNamespace "SYSTEM." = true ∧
    isReservedNamespace "systemfoo" = false := by
  refine ⟨⟨?_, ?_⟩, ⟨?_, ?_⟩, by decide, by decide, by decide, by decide, by decide⟩
  · intro herr
    by_contra hcon
    have hres : ics.any (fun ic => isReservedNamespace ic.ns) = false := by
      rcases hany : ics.any (fun ic => isReservedNamespace ic.ns) with _ | _
      · rfl
      · exact absurd (List.any_eq_true.mp hany) hcon
    exact upsert_ne_err_of_not_reserved hres r herr
  · intro h
    exact upsert_err_of_reserved (List.any_eq_true.mpr h)
  · rintro ⟨r', notifs, hok⟩ ic hic
    rcases hres : ics.any (fun ic => isReservedNamespace ic.ns) with _ | _
    · rcases hval : isReservedNamespace ic.ns with _ | _
      · rfl
      · exact absurd (List.any_eq_true.mpr ⟨ic, hic, hval⟩) (by rw [hres]; decide)
    · rw [upsert_err_of_reserved hres] at hok
      cases hok
  · intro h
    have hres : ics.any (fun ic => isReservedNamespace ic.ns) = false := by
      rcases hany : ics.any (fun ic => isReservedNamespace ic.ns) with _ | _
      · rfl
      · obtain ⟨ic, hic, hval⟩ := List.any_eq_true.mp hany
        rw [h ic hic] at hval
        cases hval
    obtain ⟨chg₂, b₂, hok, _⟩ := upsert_ok_shape r sc ics hwf hres
    exact ⟨_, _, hok⟩

theorem upsert_reserved_error_iff_witness :
    (upsert Registry.new sampleService [⟨"System", .Read⟩] = .err Registry.new) ∧
    (∃ r' notifs, upsert Registry.new sampleService [sampleIntent] = .ok r' notifs) := by
  constructor
  · exact (upsert_reserved_error_iff Registry.new sampleService [⟨"System", .Read⟩]
      (by decide)).1.mpr ⟨⟨"System", .Read⟩, List.mem_cons_self _ _, by decide⟩
  · exact (upsert_reserved_error_iff Registry.new sampleService [sampleIntent]
      (by decide)).2.1.mpr (by decide)

/-- Claim C4: Within one `upsert` call, pending per-intent transitions merge
exactly by the stated table (no prior mark → the new kind; Remove then
Add → Modify; Modify then Modify → Modify; Add then Modify → Add), every
other combination hits the fatal-assertion branch, and that branch is
unreachable in every execution of `upsert` on a well-formed registry. -/
theorem transition_merge_table_total (r : Registry) (sc : ServiceConfiguration)
    (ics : List IntentConfiguration) (hwf : WF r) :
    upsert r sc ics ≠ UpsertResult.fatal ∧
    (∀ (m : ChangeMap) i t, mapLookup m i = none →
      transition m i t = some (mapInsert m i t)) ∧
    (∀ (m : ChangeMap) i, mapLookup m i = some .Remove →
      transition m i .Add = some (mapInsert m i .Modify)) ∧
    (∀ (m : ChangeMap) i, mapLookup m i = some .Modify →
      transition m i .Modify = some (mapInsert m i .Modify)) ∧
    (∀ (m : ChangeMap) i, mapLookup m i = some .Add →
      transition m i .Modify = some (mapInsert m i .Add)) ∧
    (∀ (m : ChangeMap) i, mapLookup m i = some .Add →
      transition m i .Add = none ∧ transition m i .Remove = none) ∧
    (∀ (m : ChangeMap) i, mapLookup m i = some .Modify →
      transition m i .Add = none ∧ transition m i .Remove = none) ∧
    (∀ (m : ChangeMap) i, mapLookup m i = some .Remove →
      transition m i .Remove = none ∧ transition m i .Modify = none) := by
  refine ⟨upsert_never_fatal r sc ics hwf, ?_, ?_, ?_, ?_, ?_, ?_, ?_⟩
  · intro m i t h
    exact transition_of_lookup_none t h
  · intro m i h
    exact transition_remove_add h
  · intro m i h
    exact transition_modify_modify h
  · intro m i h
    exact transition_add_modify h
  · intro m i h
    unfold transition
    rw [h]
    exact ⟨rfl, rfl⟩
  · intro m i h
    unfold transition
    rw [h]
    exact ⟨rfl, rfl⟩
  · intro m i h
    unfold transition
    rw [h]
    exact ⟨rfl, rfl⟩

theorem transition_merge_table_total_witness :
    upsert Registry.new sampleService [sampleIntent] ≠ UpsertResult.fatal :=
  (transition_merge_table_total Registry.new sampleService [sampleIntent]
    (by decide)).1

/-- The net effect of one `upsert` call on one intent, relative to the
pre-call (`pre`) and post-call (`post`) by-intent indices: an `Add` means
the intent was unbound before and is bound (to the carried set) after, a
`Modify` means it was bound before and is bound after, a `Remove` means
it was bound before and is unbound after. -/
def netEffect (pre post : IntentMap) : Change → Prop
  | .Add i s => mapLookup pre i = none ∧ mapLookup post i = some s
  | .Modify i s => (mapLookup pre i).isSome = true ∧ mapLookup post i = some s
  | .Remove i => (mapLookup pre i).isSome = true ∧ mapLookup post i = none

theorem mem_observedBatch {chg : ChangeMap} {b : IntentMap} {batch : List Change}
    (h : batch ∈ observedBatch chg b) : batch = chg.map (matChange b) := by
  unfold observedBatch at h
  split at h
  · rcases List.mem_cons.mp h with rfl | h
    · rfl
    · cases h
  · cases h

theorem matChange_eq_remove {b : IntentMap} {p : IntentConfiguration × ChangeKind}
    {i : IntentConfiguration} (h : matChange b p = .Remove i) :
    p = (i, ChangeKind.Remove) := by
  obtain ⟨ic, k⟩ := p
  cases k
  · cases h
  · cases h
    rfl
  · cases h

theorem matChange_eq_add {b : IntentMap} {p : IntentConfiguration × ChangeKind}
    {i : IntentConfiguration} {s : List ServiceConfiguration}
    (h : matChange b p = .Add i s) :
    p = (i, ChangeKind.Add) ∧ (mapLookup b i).getD [] = s := by
  obtain ⟨ic, k⟩ := p
  cases k
  · injection h with h1 h2
    subst h1
    exact ⟨rfl, h2⟩
  · cases h
  · cases h

theorem matChange_eq_modify {b : IntentMap} {p : IntentConfiguration × ChangeKind}
    {i : IntentConfiguration} {s : List ServiceConfiguration}
    (h : matChange b p = .Modify i s) :
    p = (i, ChangeKind.Modify) ∧ (mapLookup b i).getD [] = s := by
  obtain ⟨ic, k⟩ := p
  cases k
  · cases h
  · cases h
  · injection h with h1 h2
    subst h1
    exact ⟨rfl, h2⟩

/-- Claim C1: For every single `upsert` call that returns `Ok`, the change
batch handed to the Observer contains at most one `Change` per distinct
`IntentConfiguration` (so never both a `Remove` and an `Add` for the same
intent), and the kind of each entry is the net effect of the call relative to
the registry state before the call. -/
theorem upsert_diff_minimality (r r' : Registry) (sc : ServiceConfiguration)
    (ics : List IntentConfiguration) (notifs : List (List Change))
    (hwf : WF r) (hok : upsert r sc ics = .ok r' notifs) :
    ∀ batch ∈ notifs,
      (batch.map Change.intentOf).Nodup ∧
      (∀ i s, Change.Remove i ∈ batch → Change.Add i s ∉ batch) ∧
      (∀ c ∈ batch, netEffect r.external_services_by_intent
        r'.external_services_by_intent c) := by
  obtain ⟨hres, chg₂, b₂, h1, h2, hInv, hcn, hbn, hne, hframe, hmem, -⟩ :=
    upsert_ok_elim hwf hok
  subst h1
  subst h2
  intro batch hbatch
  have hbeq : batch = chg₂.map (matChange b₂) := mem_observedBatch hbatch
  subst hbeq
  refine ⟨?_, ?_, ?_⟩
  · rw [List.map_map]
    have : (chg₂.map (Change.intentOf ∘ matChange b₂)) = chg₂.map Prod.fst :=
      List.map_congr_left fun p _ => intentOf_matChange b₂ p
    rw [this]
    exact hcn
  · intro i s hR hA
    obtain ⟨p, hp, hpe⟩ := List.mem_map.mp hR
    obtain ⟨q, hq, hqe⟩ := List.mem_map.mp hA
    have hpeq := matChange_eq_remove hpe
    have hqeq := (matChange_eq_add hqe).1
    subst hpeq
    subst hqeq
    have hlp := mapLookup_of_mem_nodup hcn hp
    have hlq := mapLookup_of_mem_nodup hcn hq
    rw [hlp] at hlq
    cases hlq
  · intro c hc
    obtain ⟨p, hp, hpe⟩ := List.mem_map.mp hc
    have hl := mapLookup_of_mem_nodup hcn hp
    subst hpe
    obtain ⟨ic, k⟩ := p
    cases k
    · obtain ⟨hpre, hpost⟩ := (hInv ic).2.2.1 hl
      rcases hL : mapLookup b₂ ic with _ | ss
      · rw [hL] at hpost
        cases hpost
      · exact ⟨hpre, by rw [hL]; rfl⟩
    · obtain ⟨hpre, hpost⟩ := (hInv ic).1 hl
      exact ⟨hpre, hpost⟩
    · obtain ⟨hpre, hpost⟩ := (hInv ic).2.1 hl
      rcases hL : mapLookup b₂ ic with _ | ss
      · rw [hL] at hpost
        cases hpost
      · exact ⟨hpre, by rw [hL]; rfl⟩

theorem upsert_diff_minimality_witness :
    (([Change.Add sampleIntent [sampleService]].map Change.intentOf)).Nodup ∧
    netEffect Registry.new.external_services_by_intent
      (Registry.mk [(sampleIntent, [sampleService])]
        [sampleService]).external_services_by_intent
      (Change.Add sampleIntent [sampleService]) := by
  have h := upsert_diff_minimality Registry.new
    ⟨[(sampleIntent, [sampleService])], [sampleService]⟩ sampleService
    [sampleIntent] [[Change.Add sampleIntent [sampleService]]]
    (by decide) (by decide)
    [Change.Add sampleIntent [sampleService]] (by decide)
  exact ⟨h.1, h.2.2 (Change.Add sampleIntent [sampleService]) (by decide)⟩

theorem has_service_true_iff (r : Registry) (x : ServiceConfiguration) :
    has_service r x = true ↔ x ∈ r.known_services := by
  simp [has_service]

theorem has_service_false_iff (r : Registry) (x : ServiceConfiguration) :
    has_service r x = false ↔ x ∉ r.known_services := by
  simp [has_service]

theorem known_after_eq (K : List ServiceConfiguration) (sc : ServiceConfiguration) :
    setInsert (K.filter fun s => decide (s.id ≠ sc.id)) sc =
      (K.filter fun s => decide (s.id ≠ sc.id)) ++ [sc] := by
  unfold setInsert
  rw [if_neg]
  intro hcon
  have := (List.mem_filter.mp hcon).2
  simp at this

theorem mem_known_after {K : List ServiceConfiguration} {sc x : ServiceConfiguration} :
    x ∈ setInsert (K.filter fun s => decide (s.id ≠ sc.id)) sc ↔
      (x ∈ K ∧ x.id ≠ sc.id) ∨ x = sc := by
  rw [mem_setInsert]
  constructor
  · rintro (h | rfl)
    · obtain ⟨h1, h2⟩ := List.mem_filter.mp h
      exact Or.inl ⟨h1, by simpa using h2⟩
    · exact Or.inr rfl
  · rintro (⟨h1, h2⟩ | rfl)
    · exact Or.inl (List.mem_filter.mpr ⟨h1, by simpa using h2⟩)
    · exact Or.inr rfl

theorem known_after_ids_nodup {K : List ServiceConfiguration}
    (h : (K.map ServiceConfiguration.id).Nodup) (sc : ServiceConfiguration) :
    ((setInsert (K.filter fun s => decide (s.id ≠ sc.id)) sc).map
      ServiceConfiguration.id).Nodup := by
  rw [known_after_eq, List.map_append, List.nodup_append]
  refine ⟨?_, List.nodup_singleton _, ?_⟩
  · exact h.sublist ((List.filter_sublist K).map ServiceConfiguration.id)
  · intro y hy
    obtain ⟨x, hx, rfl⟩ := List.mem_map.mp hy
    have := (List.mem_filter.mp hx).2
    simp only [decide_eq_true_eq] at this
    simpa using this

theorem pruneState_frame {sid : ServiceId} {b : IntentMap}
    (hnd : (b.map Prod.fst).Nodup) (x : ServiceConfiguration)
    (hx : x.id ≠ sid) (ic : IntentConfiguration) :
    (x ∈ (mapLookup (pruneState sid b) ic).getD []) ↔
      (x ∈ (mapLookup b ic).getD []) := by
  rw [mapLookup_pruneState hnd ic]
  have hmem : ∀ ss : List ServiceConfiguration, x ∈ pruneFilter sid ss ↔ x ∈ ss := by
    intro ss
    unfold pruneFilter
    rw [List.mem_filter]
    simp [hx]
  rcases hL : mapLookup b ic with _ | ss
  · exact Iff.rfl
  · rw [show (match some ss with
      | none => none
      | some ss => if (pruneFilter sid ss).isEmpty = true then none
                   else some (pruneFilter sid ss)) =
      (if (pruneFilter sid ss).isEmpty = true then none
       else some (pruneFilter sid ss)) from rfl]
    by_cases he : (pruneFilter sid ss).isEmpty
    · rw [if_pos he, Option.getD_none, Option.getD_some]
      constructor
      · intro h
        cases h
      · intro h
        have := (hmem ss).mpr h
        rw [List.isEmpty_iff.mp he] at this
        cases this
    · rw [if_neg he, Option.getD_some, Option.getD_some]
      exact hmem ss

theorem upsert_ok_known {r : Registry} {sc : ServiceConfiguration}
    {ics : List IntentConfiguration} {r' : Registry} {notifs : List (List Change)}
    (hok : upsert r sc ics = .ok r' notifs) :
    r'.known_services =
      setInsert (r.known_services.filter fun s => decide (s.id ≠ sc.id)) sc := by
  simp only [upsert] at hok
  split at hok
  · cases hok
  · split at hok
    · cases hok
    · split at hok
      · cases hok
      · split at hok
        · cases hok
        · injection hok with h1 h2
          rw [← h1]

theorem upsert_ok_notifs_shape {r : Registry} {sc : ServiceConfiguration}
    {ics : List IntentConfiguration} {r' : Registry} {notifs : List (List Change)}
    (hok : upsert r sc ics = .ok r' notifs) :
    notifs = [] ∨ ∃ batch, batch ≠ [] ∧ notifs = [batch] := by
  simp only [upsert] at hok
  split at hok
  · cases hok
  · split at hok
    · cases hok
    · split at hok
      · cases hok
      · split at hok
        · cases hok
        · injection hok with h1 h2
          rw [← h2]
          split
          · refine Or.inr ⟨_, ?_, rfl⟩
            intro hcon
            rename_i hlen
            rw [hcon] at hlen
            cases hlen
          · exact Or.inl rfl

theorem pruneState_eq_self {sid : ServiceId} {b : IntentMap}
    (hne : ∀ p ∈ b, p.2 ≠ []) (hall : ∀ p ∈ b, ∀ s ∈ p.2, s.id ≠ sid) :
    pruneState sid b = b := by
  induction b with
  | nil => rfl
  | cons p rest ih =>
    obtain ⟨ic, ss⟩ := p
    have hF : pruneFilter sid ss = ss := by
      unfold pruneFilter
      rw [List.filter_eq_self]
      intro s hs
      simpa using hall (ic, ss) (List.mem_cons_self _ _) s hs
    have hFe : ¬ (pruneFilter sid ss).isEmpty := by
      rw [hF]
      simpa [List.isEmpty_iff] using hne (ic, ss) (List.mem_cons_self _ _)
    unfold pruneState
    rw [if_neg hFe, hF,
      ih (fun q hq => hne q (List.mem_cons_of_mem _ hq))
        (fun q hq => hall q (List.mem_cons_of_mem _ hq))]

theorem pruneMark_eq_none_of_no_id {sid : ServiceId} {b : IntentMap}
    (hall : ∀ p ∈ b, ∀ s ∈ p.2, s.id ≠ sid) (ic : IntentConfiguration) :
    pruneMark sid b ic = none := by
  unfold pruneMark
  rcases hL : mapLookup b ic with _ | ss
  · rfl
  · have hF : pruneFilter sid ss = ss := by
      unfold pruneFilter
      rw [List.filter_eq_self]
      intro s hs
      simpa using hall (ic, ss) (mapLookup_mem hL) s hs
    rw [show (match some ss with
      | none => none
      | some ss =>
        if (pruneFilter sid ss).length = ss.length then none
        else if (pruneFilter sid ss).isEmpty = true then some ChangeKind.Remove
        else some ChangeKind.Modify) =
      (if (pruneFilter sid ss).length = ss.length then none
       else if (pruneFilter sid ss).isEmpty = true then some ChangeKind.Remove
       else some ChangeKind.Modify) from rfl]
    rw [if_pos (by rw [hF])]

theorem pruneMark_ne_add (sid : ServiceId) (b : IntentMap)
    (ic : IntentConfiguration) : pruneMark sid b ic ≠ some ChangeKind.Add := by
  unfold pruneMark
  rcases hL : mapLookup b ic with _ | ss
  · intro hcon
    cases hcon
  · rw [show (match some ss with
      | none => none
      | some ss =>
        if (pruneFilter sid ss).length = ss.length then none
        else if (pruneFilter sid ss).isEmpty = true then some ChangeKind.Remove
        else some ChangeKind.Modify) =
      (if (pruneFilter sid ss).length = ss.length then none
       else if (pruneFilter sid ss).isEmpty = true then some ChangeKind.Remove
       else some ChangeKind.Modify) from rfl]
    split
    · intro hcon
      cases hcon
    · split <;> intro hcon <;> cases hcon

theorem pruneMark_isSome_of_hit {sid : ServiceId} {b : IntentMap}
    (hnd : (b.map Prod.fst).Nodup) {ic : IntentConfiguration}
    {ss : List ServiceConfiguration} (hmem : (ic, ss) ∈ b)
    {s : ServiceConfiguration} (hs : s ∈ ss) (hid : s.id = sid) :
    (pruneMark sid b ic).isSome = true := by
  have hL : mapLookup b ic = some ss := mapLookup_of_mem_nodup hnd hmem
  unfold pruneMark
  rw [hL]
  have hlt : (pruneFilter sid ss).length < ss.length := by
    unfold pruneFilter
    apply List.length_filter_lt_length_iff_exists.mpr
    exact ⟨s, hs, by simp [hid]⟩
  rw [show (match some ss with
    | none => none
    | some ss =>
      if (pruneFilter sid ss).length = ss.length then none
      else if (pruneFilter sid ss).isEmpty = true then some ChangeKind.Remove
      else some ChangeKind.Modify) =
    (if (pruneFilter sid ss).length = ss.length then none
     else if (pruneFilter sid ss).isEmpty = true then some ChangeKind.Remove
     else some ChangeKind.Modify) from rfl]
  rw [if_neg (by omega)]
  split <;> rfl

theorem upsert_preserves_WF {r r' : Registry} {sc : ServiceConfiguration}
    {ics : List IntentConfiguration} {notifs : List (List Change)}
    (hwf : WF r) (hok : upsert r sc ics = .ok r' notifs) :
    WF r' ∧ sc ∈ r'.known_services ∧
      (∀ s ∈ r'.known_services, s.id = sc.id → s = sc) := by
  obtain ⟨hres, chg₂, b₂, h1, h2, hInv, hcn, hbn, hne, hframe, hmem, -⟩ :=
    upsert_ok_elim hwf hok
  obtain ⟨hnd₀, hne₀, hkn₀, hcons₀⟩ := hwf
  subst h1
  refine ⟨⟨hbn, hne, known_after_ids_nodup hkn₀ sc, ?_⟩, ?_, ?_⟩
  · intro p hp s hs
    rcases hmem p hp s hs with ⟨q, hq, hsq⟩ | rfl
    · obtain ⟨ss₀, hqmem, hfil, -⟩ := mem_pruneState hq
      rw [hfil] at hsq
      unfold pruneFilter at hsq
      have hs0 := List.mem_filter.mp hsq
      have hsid : s.id ≠ sc.id := by simpa using hs0.2
      obtain ⟨k, hk, hkid⟩ := hcons₀ (q.1, ss₀) hqmem s hs0.1
      exact ⟨k, mem_known_after.mpr (Or.inl ⟨hk, by rw [hkid]; exact hsid⟩), hkid⟩
    · exact ⟨s, mem_known_after.mpr (Or.inr rfl), rfl⟩
  · exact mem_known_after.mpr (Or.inr rfl)
  · intro s hsmem hsid
    rcases mem_known_after.mp hsmem with ⟨-, hne'⟩ | rfl
    · exact absurd hsid hne'
    · rfl

theorem upsert_frame {r r' : Registry} {sc : ServiceConfiguration}
    {ics : List IntentConfiguration} {notifs : List (List Change)}
    (hwf : WF r) (hok : upsert r sc ics = .ok r' notifs)
    (x : ServiceConfiguration) (hx : x.id ≠ sc.id) :
    (x ∈ r'.known_services ↔ x ∈ r.known_services) ∧
    (∀ ic, (x ∈ (mapLookup r'.external_services_by_intent ic).getD []) ↔
      (x ∈ (mapLookup r.external_services_by_intent ic).getD [])) := by
  obtain ⟨hres, chg₂, b₂, h1, h2, hInv, hcn, hbn, hne, hframe, hmem, -⟩ :=
    upsert_ok_elim hwf hok
  subst h1
  have hxsc : x ≠ sc := fun hcon => hx (hcon ▸ rfl)
  constructor
  · constructor
    · intro h
      rcases mem_known_after.mp h with ⟨hmem', _⟩ | rfl
      · exact hmem'
      · exact absurd rfl hx
    · intro h
      exact mem_known_after.mpr (Or.inl ⟨h, hx⟩)
  · intro ic
    rw [hframe x hxsc ic, pruneState_frame hwf.1 x hx ic]

theorem pruneState_all_ids_ne (sid : ServiceId) (b : IntentMap) :
    ∀ ic, ∀ s ∈ (mapLookup (pruneState sid b) ic).getD [], s.id ≠ sid := by
  intro ic s hs
  rcases hL : mapLookup (pruneState sid b) ic with _ | ss2
  · rw [hL] at hs
    cases hs
  · rw [hL, Option.getD_some] at hs
    obtain ⟨ss₀, hmem, hfil, -⟩ := mem_pruneState (mapLookup_mem hL)
    have hfil2 : ss2 = pruneFilter sid ss₀ := hfil
    rw [hfil2] at hs
    unfold pruneFilter at hs
    have := (List.mem_filter.mp hs).2
    simpa using this

theorem pruneMark_isSome_elim {sid : ServiceId} {b : IntentMap}
    {ic : IntentConfiguration} (h : (pruneMark sid b ic).isSome = true) :
    ∃ ss, mapLookup b ic = some ss ∧ ∃ s ∈ ss, s.id = sid := by
  unfold pruneMark at h
  rcases hL : mapLookup b ic with _ | ss
  · rw [hL] at h
    cases h
  · simp only [hL] at h
    refine ⟨ss, rfl, ?_⟩
    by_cases heq : (pruneFilter sid ss).length = ss.length
    · rw [if_pos heq] at h
      cases h
    · have hle : (pruneFilter sid ss).length ≤ ss.length := by
        unfold pruneFilter
        exact (List.filter_sublist ss).length_le
      have hlt : (pruneFilter sid ss).length < ss.length := by omega
      unfold pruneFilter at hlt
      obtain ⟨x, hx, hxp⟩ := List.length_filter_lt_length_iff_exists.mp hlt
      refine ⟨x, hx, ?_⟩
      by_contra hcon
      exact hxp (by simpa using hcon)

/-- Claim C8: Every successful `upsert` preserves the registry invariants:
no by-intent entry maps to an empty set, the known-services set holds
exactly one configuration per `ServiceId` (the most recently upserted
one: the entry for the upserted id is the new configuration, and the
entries of every other id are untouched by the call), and every bound
service is backed by a known service with the same id.  (`WF`
additionally records the map/set representation facts.) -/
theorem upsert_preserves_invariants (r r' : Registry) (sc : ServiceConfiguration)
    (ics : List IntentConfiguration) (notifs : List (List Change))
    (hwf : WF r) (hok : upsert r sc ics = .ok r' notifs) :
    WF r' ∧
    (∀ p ∈ r'.external_services_by_intent, p.2 ≠ []) ∧
    (r'.known_services.map ServiceConfiguration.id).Nodup ∧
    sc ∈ r'.known_services ∧
    (∀ s ∈ r'.known_services, s.id = sc.id → s = sc) ∧
    (∀ x : ServiceConfiguration, x.id ≠ sc.id →
      (x ∈ r'.known_services ↔ x ∈ r.known_services)) ∧
    (∀ p ∈ r'.external_services_by_intent, ∀ s ∈ p.2,
      ∃ k ∈ r'.known_services, k.id = s.id) := by
  obtain ⟨hwf', hmem, hlatest⟩ := upsert_preserves_WF hwf hok
  refine ⟨hwf', hwf'.2.1, hwf'.2.2.1, hmem, hlatest, ?_, hwf'.2.2.2⟩
  intro x hx
  exact (upsert_frame hwf hok x hx).1

theorem upsert_preserves_invariants_witness :
    WF (⟨[(sampleIntent, [sampleService])], [sampleService]⟩ : Registry) ∧
    (∀ p ∈ [(sampleIntent, [sampleService])], p.2 ≠ ([] : List ServiceConfiguration)) ∧
    ([sampleService].map ServiceConfiguration.id).Nodup ∧
    sampleService ∈ [sampleService] ∧
    (∀ s ∈ [sampleService], s.id = sampleService.id → s = sampleService) ∧
    (∀ x : ServiceConfiguration, x.id ≠ sampleService.id →
      (x ∈ [sampleService] ↔ x ∈ ([] : List ServiceConfiguration))) ∧
    (∀ p ∈ [(sampleIntent, [sampleService])], ∀ s ∈ p.2,
      ∃ k ∈ [sampleService], k.id = s.id) :=
  upsert_preserves_invariants Registry.new
    ⟨[(sampleIntent, [sampleService])], [sampleService]⟩ sampleService
    [sampleIntent] [[Change.Add sampleIntent [sampleService]]]
    (by decide) (by decide)

/-- Claim C9: Service identity is the pair (name, version): configurations
with the same name but different versions coexist, and re-upserting one
version (which prunes the old bindings of that version) leaves the bindings and
known-services entry of the other version unchanged, because pruning
compares the full `ServiceId`. -/
theorem upsert_version_distinctness
    (r₀ r₁ r₂ : Registry) (S1 S2 : ServiceConfiguration)
    (I1 I2 : List IntentConfiguration) (n₁ n₂ : List (List Change))
    (hwf : WF r₀)
    (hname : S1.id.name = S2.id.name)
    (hver : S1.id.version ≠ S2.id.version)
    (h1 : upsert r₀ S1 I1 = .ok r₁ n₁)
    (h2 : upsert r₁ S2 I2 = .ok r₂ n₂) :
    (has_service r₂ S1 = true ∧ has_service r₂ S2 = true) ∧
    (∀ (S1' : ServiceConfiguration) (I' : List IntentConfiguration)
        (r₃ : Registry) (n₃ : List (List Change)),
      S1'.id = S1.id → upsert r₂ S1' I' = .ok r₃ n₃ →
      has_service r₃ S2 = true ∧
      (∀ ic, (S2 ∈ (mapLookup r₃.external_services_by_intent ic).getD []) ↔
        (S2 ∈ (mapLookup r₂.external_services_by_intent ic).getD []))) := by
  have hid : S1.id ≠ S2.id := fun hcon => hver (congrArg ServiceId.version hcon)
  obtain ⟨hwf₁, hS1known, -⟩ := upsert_preserves_WF hwf h1
  obtain ⟨hwf₂, hS2known, -⟩ := upsert_preserves_WF hwf₁ h2
  refine ⟨⟨?_, ?_⟩, ?_⟩
  · rw [has_service_true_iff]
    exact ((upsert_frame hwf₁ h2 S1 hid).1).mpr hS1known
  · rw [has_service_true_iff]
    exact hS2known
  · intro S1' I' r₃ n₃ hS1'id h3
    have hx : S2.id ≠ S1'.id := by
      rw [hS1'id]
      exact fun hcon => hid hcon.symm
    obtain ⟨hknown_iff, hbind_iff⟩ := upsert_frame hwf₂ h3 S2 hx
    constructor
    · rw [has_service_true_iff]
      exact hknown_iff.mpr hS2known
    · exact hbind_iff

theorem upsert_version_distinctness_witness :
    (has_service ⟨[(sampleIntent, [sampleService, sampleServiceV2])],
        [sampleService, sampleServiceV2]⟩ sampleService = true ∧
     has_service ⟨[(sampleIntent, [sampleService, sampleServiceV2])],
        [sampleService, sampleServiceV2]⟩ sampleServiceV2 = true) ∧
    (∀ (S1' : ServiceConfiguration) (I' : List IntentConfiguration)
        (r₃ : Registry) (n₃ : List (List Change)),
      S1'.id = sampleService.id →
      upsert ⟨[(sampleIntent, [sampleService, sampleServiceV2])],
        [sampleService, sampleServiceV2]⟩ S1' I' = .ok r₃ n₃ →
      has_service r₃ sampleServiceV2 = true ∧
      (∀ ic, (sampleServiceV2 ∈ (mapLookup r₃.external_services_by_intent ic).getD []) ↔
        (sampleServiceV2 ∈ (mapLookup
          (⟨[(sampleIntent, [sampleService, sampleServiceV2])],
            [sampleService, sampleServiceV2]⟩ : Registry).external_services_by_intent
          ic).getD []))) :=
  upsert_version_distinctness Registry.new
    ⟨[(sampleIntent, [sampleService])], [sampleService]⟩
    ⟨[(sampleIntent, [sampleService, sampleServiceV2])],
      [sampleService, sampleServiceV2]⟩
    sampleService sampleServiceV2 [sampleIntent] [sampleIntent]
    [[Change.Add sampleIntent [sampleService]]]
    [[Change.Modify sampleIntent [sampleService, sampleServiceV2]]]
    (by decide) (by decide) (by decide) (by decide) (by decide)

/-- Claim C6, counterexample: The claim quantifies over all `S`, `S2` with
`S2.id == S.id` and asserts `hasService S == false` afterwards; taking
`S2 = S` refutes it, since the re-upserted configuration itself is then
known. -/
theorem upsert_identity_replace_counterexample :
    ¬ (∀ (r₀ : Registry) (S S2 : ServiceConfiguration)
        (I I2 : List IntentConfiguration) (r₁ r₂ : Registry)
        (n₁ n₂ : List (List Change)),
        WF r₀ →
        (∀ ic ∈ I, isReservedNamespace ic.ns = false) →
        (∀ ic ∈ I2, isReservedNamespace ic.ns = false) →
        S2.id = S.id →
        upsert r₀ S I = .ok r₁ n₁ → upsert r₁ S2 I2 = .ok r₂ n₂ →
        has_service r₂ S = false ∧ has_service r₂ S2 = true) := by
  intro h
  have hinst := h Registry.new sampleService sampleService [] []
    ⟨[], [sampleService]⟩ ⟨[], [sampleService]⟩ [] []
    (by decide) (by decide) (by decide) rfl (by decide) (by decide)
  exact absurd hinst.1 (by decide)

/-- Claim C6, amended: For all configurations `S`, `S2` with `S2.id = S.id`
and `S2 ≠ S` (the counterexample forces excluding the re-upsert of the
identical configuration): after `upsert(S, I)` then `upsert(S2, I2)`,
`hasService S` is false and `hasService S2` is true, regardless of
whether the endpoint or locality of `S2` differ from those of `S`. -/
theorem upsert_identity_replace_amended
    (r₀ : Registry) (S S2 : ServiceConfiguration)
    (I I2 : List IntentConfiguration) (r₁ r₂ : Registry)
    (n₁ n₂ : List (List Change))
    (hid : S2.id = S.id) (hneq : S2 ≠ S)
    (h1 : upsert r₀ S I = .ok r₁ n₁) (h2 : upsert r₁ S2 I2 = .ok r₂ n₂) :
    has_service r₂ S = false ∧ has_service r₂ S2 = true := by
  have hknown := upsert_ok_known h2
  constructor
  · rw [has_service_false_iff, hknown]
    intro hcon
    rcases mem_known_after.mp hcon with ⟨-, hne'⟩ | rfl
    · exact hne' hid.symm
    · exact hneq rfl
  · rw [has_service_true_iff, hknown]
    exact mem_known_after.mpr (Or.inr rfl)

theorem upsert_identity_replace_amended_witness :
    has_service ⟨[], [sampleServiceNewUrl]⟩ sampleService = false ∧
    has_service ⟨[], [sampleServiceNewUrl]⟩ sampleServiceNewUrl = true :=
  upsert_identity_replace_amended Registry.new sampleService sampleServiceNewUrl
    [] [] ⟨[], [sampleService]⟩ ⟨[], [sampleServiceNewUrl]⟩ [] []
    (by decide) (by decide) (by decide) (by decide)

/-- Claim C5: Upserting a brand-new service (id not yet known) with an empty
intent list only inserts its configuration into the known-services set:
the by-intent index is unchanged, the Observer is not invoked, and
`has_service` is true afterwards.  Re-upserting a service whose id has
bindings, with an empty intent list, prunes all of its prior bindings (no
binding with that id survives) and invokes the Observer once with a
non-empty batch of only Remove/Modify changes whose intents are exactly
the intents previously bound to that id.  In general the Observer is
invoked exactly once when the batch is non-empty and not at all when it
is empty. -/
theorem upsert_empty_intents_and_observer :
    (∀ (r : Registry) (sc : ServiceConfiguration), WF r →
      (∀ s ∈ r.known_services, s.id ≠ sc.id) →
      upsert r sc [] =
        .ok ⟨r.external_services_by_intent, r.known_services ++ [sc]⟩ [] ∧
      has_service ⟨r.external_services_by_intent, r.known_services ++ [sc]⟩ sc
        = true) ∧
    (∀ (r : Registry) (sc : ServiceConfiguration), WF r →
      (∃ p ∈ r.external_services_by_intent, ∃ s ∈ p.2, s.id = sc.id) →
      ∃ r' batch, upsert r sc [] = .ok r' [batch] ∧ batch ≠ [] ∧
        (∀ c ∈ batch, (∃ i, c = Change.Remove i) ∨
          (∃ i ss, c = Change.Modify i ss)) ∧
        (∀ ic, ∀ s' ∈ (mapLookup r'.external_services_by_intent ic).getD [],
          s'.id ≠ sc.id) ∧
        (∀ ic ss, mapLookup r.external_services_by_intent ic = some ss →
          (∃ s' ∈ ss, s'.id = sc.id) → ∃ c ∈ batch, c.intentOf = ic) ∧
        (∀ c ∈ batch, ∃ ss,
          mapLookup r.external_services_by_intent c.intentOf = some ss ∧
          ∃ s' ∈ ss, s'.id = sc.id)) ∧
    (∀ (r : Registry) (sc : ServiceConfiguration)
        (ics : List IntentConfiguration) (r' : Registry)
        (notifs : List (List Change)),
      upsert r sc ics = .ok r' notifs →
      notifs = [] ∨ ∃ batch, batch ≠ [] ∧ notifs = [batch]) := by
  refine ⟨?_, ?_, ?_⟩
  · intro r sc hwf hfresh
    have hall : ∀ p ∈ r.external_services_by_intent, ∀ s ∈ p.2, s.id ≠ sc.id := by
      intro p hp s hs
      obtain ⟨k, hk, hkid⟩ := hwf.2.2.2 p hp s hs
      rw [← hkid]
      exact hfresh k hk
    obtain ⟨chg₂, b₂, hshape, hInv, hcn, hbn, hne, hframe, hmem, hnil⟩ :=
      upsert_ok_shape r sc [] hwf rfl
    obtain ⟨hchg, hb⟩ := hnil rfl
    have hchg₂ : chg₂ = [] :=
      eq_nil_of_lookup_none fun ic =>
        (hchg ic).trans (pruneMark_eq_none_of_no_id hall ic)
    have hb₂ : b₂ = r.external_services_by_intent :=
      hb.trans (pruneState_eq_self hwf.2.1 hall)
    have hkf : r.known_services.filter (fun s => decide (s.id ≠ sc.id)) =
        r.known_services := by
      rw [List.filter_eq_self]
      intro s hs
      simpa using hfresh s hs
    have hknown : setInsert
        (r.known_services.filter fun s => decide (s.id ≠ sc.id)) sc =
        r.known_services ++ [sc] := by
      rw [known_after_eq, hkf]
    have hobs : observedBatch chg₂ b₂ = [] := by
      rw [hchg₂]
      rfl
    constructor
    · rw [hshape, hobs, hknown, hb₂]
    · rw [has_service_true_iff]
      exact List.mem_append.mpr (Or.inr (List.mem_singleton.mpr rfl))
  · intro r sc hwf hhit
    obtain ⟨p, hp, s, hs, hsid⟩ := hhit
    obtain ⟨chg₂, b₂, hshape, hInv, hcn, hbn, hne, hframe, hmem, hnil⟩ :=
      upsert_ok_shape r sc [] hwf rfl
    obtain ⟨hchg, hb⟩ := hnil rfl
    have hmark : (pruneMark sc.id r.external_services_by_intent p.1).isSome
        = true := by
      refine pruneMark_isSome_of_hit hwf.1 ?_ hs hsid
      exact (show ((p.1, p.2) : IntentConfiguration × List ServiceConfiguration)
        = p by rfl) ▸ hp
    have hchg₂ : chg₂ ≠ [] := by
      intro hcon
      rw [hcon] at hchg
      have := (hchg p.1).symm
      rw [show mapLookup ([] : ChangeMap) p.1 = none from rfl] at this
      rw [this] at hmark
      cases hmark
    have hbatch : chg₂.map (matChange b₂) ≠ [] := by
      intro hcon
      exact hchg₂ (List.map_eq_nil.mp hcon)
    have hobs : observedBatch chg₂ b₂ = [chg₂.map (matChange b₂)] := by
      unfold observedBatch
      rw [if_pos (List.length_pos.mpr hbatch)]
    refine ⟨_, chg₂.map (matChange b₂), by rw [hshape, hobs], hbatch,
      ?_, ?_, ?_, ?_⟩
    · intro c hc
      obtain ⟨q, hq, rfl⟩ := List.mem_map.mp hc
      have hlq := mapLookup_of_mem_nodup hcn hq
      rcases hk : q.2 with _ | _ | _
      · rw [hk] at hlq
        rw [hchg q.1] at hlq
        exact absurd hlq (pruneMark_ne_add _ _ _)
      · refine Or.inl ⟨q.1, ?_⟩
        obtain ⟨ic, k⟩ := q
        simp only at hk
        subst hk
        rfl
      · refine Or.inr ⟨q.1, (mapLookup b₂ q.1).getD [], ?_⟩
        obtain ⟨ic, k⟩ := q
        simp only at hk
        subst hk
        rfl
    · intro ic s' hs'
      have hs2 : s' ∈ (mapLookup b₂ ic).getD [] := hs'
      rw [hb] at hs2
      exact pruneState_all_ids_ne sc.id r.external_services_by_intent ic s' hs2
    · intro ic ss₁ hss hex
      obtain ⟨s', hs', hsid'⟩ := hex
      have hmark' : (pruneMark sc.id r.external_services_by_intent ic).isSome
          = true :=
        pruneMark_isSome_of_hit hwf.1 (mapLookup_mem hss) hs' hsid'
      rw [← hchg ic] at hmark'
      obtain ⟨k, hk⟩ := Option.isSome_iff_exists.mp hmark'
      exact ⟨matChange b₂ (ic, k), List.mem_map_of_mem _ (mapLookup_mem hk),
        intentOf_matChange b₂ (ic, k)⟩
    · intro c hc
      obtain ⟨q, hq, rfl⟩ := List.mem_map.mp hc
      have hlq := mapLookup_of_mem_nodup hcn hq
      rw [hchg q.1] at hlq
      have hsome : (pruneMark sc.id r.external_services_by_intent q.1).isSome
          = true := by
        rw [hlq]
        rfl
      obtain ⟨ss₁, hss, s', hs', hsid'⟩ := pruneMark_isSome_elim hsome
      rw [intentOf_matChange]
      exact ⟨ss₁, hss, s', hs', hsid'⟩
  · intro r sc ics r' notifs hok
    exact upsert_ok_notifs_shape hok

theorem upsert_empty_intents_and_observer_witness :
    (upsert Registry.new sampleService [] =
      .ok ⟨[], [sampleService]⟩ [] ∧
     has_service ⟨[], [sampleService]⟩ sampleService = true) ∧
    (∃ r' batch,
      upsert ⟨[(sampleIntent, [sampleService])], [sampleService]⟩
        sampleService [] = .ok r' [batch] ∧ batch ≠ [] ∧
      (∀ c ∈ batch, (∃ i, c = Change.Remove i) ∨
        (∃ i ss, c = Change.Modify i ss)) ∧
      (∀ ic, ∀ s' ∈ (mapLookup r'.external_services_by_intent ic).getD [],
        s'.id ≠ sampleService.id) ∧
      (∀ ic ss, mapLookup (⟨[(sampleIntent, [sampleService])],
          [sampleService]⟩ : Registry).external_services_by_intent ic
          = some ss →
        (∃ s' ∈ ss, s'.id = sampleService.id) →
        ∃ c ∈ batch, c.intentOf = ic) ∧
      (∀ c ∈ batch, ∃ ss,
        mapLookup (⟨[(sampleIntent, [sampleService])],
          [sampleService]⟩ : Registry).external_services_by_intent c.intentOf
          = some ss ∧ ∃ s' ∈ ss, s'.id = sampleService.id)) := by
  constructor
  · have h := upsert_empty_intents_and_observer.1 Registry.new sampleService
      (by decide) (by decide)
    exact ⟨h.1, h.2⟩
  · exact upsert_empty_intents_and_observer.2.1
      ⟨[(sampleIntent, [sampleService])], [sampleService]⟩ sampleService
      (by decide)
      ⟨(sampleIntent, [sampleService]), List.mem_cons_self _ _, sampleService,
        List.mem_cons_self _ _, rfl⟩

/-- Claim C7: After `upsert(A, [I1])` on a fresh registry, calling
`upsert(A, [I1])` again with identical values leaves the registry state
unchanged but still invokes the Observer with exactly one change,
`Modify(I1, {A})`: re-registration is idempotent in effect but its
notification is not suppressed by comparison with the prior identical
state. -/
theorem upsert_reregistration_notification (sc : ServiceConfiguration)
    (ic : IntentConfiguration) (hres : isReservedNamespace ic.ns = false) :
    ∃ r₁ n₁, upsert Registry.new sc [ic] = .ok r₁ n₁ ∧
      upsert r₁ sc [ic] = .ok r₁ [[Change.Modify ic [sc]]] := by
  refine ⟨⟨[(ic, [sc])], [sc]⟩, [[Change.Add ic [sc]]], ?_, ?_⟩
  · simp [upsert, hres, pruneByIntent, applyIntents, transition, mapLookup,
      mapInsert, setInsert, observeChanges, Registry.new]
  · simp [upsert, hres, pruneByIntent, pruneFilter, applyIntents, transition,
      mapLookup, mapInsert, setInsert, observeChanges]

theorem upsert_reregistration_notification_witness :
    ∃ r₁ n₁, upsert Registry.new sampleService [sampleIntent] = .ok r₁ n₁ ∧
      upsert r₁ sampleService [sampleIntent] =
        .ok r₁ [[Change.Modify sampleIntent [sampleService]]] :=
  upsert_reregistration_notification sampleService sampleIntent (by decide)

theorem eqIgnoreAsciiCase_iff (a : List Nat) : ∀ b : List Nat,
    eqIgnoreAsciiCase a b = true ↔
      a.map toAsciiLowercase = b.map toAsciiLowercase := by
  induction a with
  | nil =>
    intro b
    cases b with
    | nil => simp [eqIgnoreAsciiCase]
    | cons y ys => simp [eqIgnoreAsciiCase]
  | cons x xs ih =>
    intro b
    cases b with
    | nil => simp [eqIgnoreAsciiCase]
    | cons y ys =>
      simp only [eqIgnoreAsciiCase, List.zip_cons_cons, List.all_cons,
        List.length_cons, List.map_cons, List.cons.injEq, Bool.and_eq_true,
        beq_iff_eq]
      constructor
      · rintro ⟨hlen, hx, hrest⟩
        refine ⟨hx, ?_⟩
        apply (ih ys).mp
        unfold eqIgnoreAsciiCase
        rw [Bool.and_eq_true]
        exact ⟨by simp [Nat.succ_injective (by exact hlen)], hrest⟩
      · rintro ⟨hx, hrest⟩
        have h2 := (ih ys).mpr hrest
        unfold eqIgnoreAsciiCase at h2
        rw [Bool.and_eq_true] at h2
        have hlen : xs.length = ys.length := by simpa using h2.1
        exact ⟨by omega, hx, h2.2⟩

theorem startsWith_iff (s p : List Nat) :
    startsWithIgnoreAsciiCase s p = true ↔
      (s.take p.length).map toAsciiLowercase = p.map toAsciiLowercase := by
  unfold startsWithIgnoreAsciiCase
  rw [Bool.and_eq_true, decide_eq_true_eq, eqIgnoreAsciiCase_iff]
  constructor
  · exact And.right
  · intro h
    refine ⟨?_, h⟩
    have hlen := congrArg List.length h
    rw [List.length_map, List.length_map, List.length_take, Nat.min_def] at hlen
    split at hlen <;> omega

/-- Simple Unicode case folding restricted to the characters involved in
the example: ASCII uppercase letters fold to lowercase, and U+017F LATIN
SMALL LETTER LONG S folds to "s" (its Unicode case folding). -/
def unicodeSimpleFold (c : Char) : Char :=
  if c = 'ſ' then 's'
  else if 'A' ≤ c ∧ c ≤ 'Z' then Char.ofNat (c.toNat + 32)
  else c

/-- Claim C10: The reserved-namespace check is ASCII-case-insensitive only:
`upsert` rejects a namespace exactly when its UTF-8 bytes match
`"system"` or the prefix `"system."` under ASCII case folding.  The
namespace `"ſystem"` (long s, U+017F) equals `"system"` under Unicode
case folding but not under ASCII folding, so `upsert` accepts it and
binds the service to that intent. -/
theorem reserved_namespace_ascii_only :
    (∀ ns : String, isReservedNamespace ns = true ↔
      ((strBytes ns).map toAsciiLowercase =
        (strBytes systemNamespace).map toAsciiLowercase ∨
       ((strBytes ns).take (strBytes systemNamespaceDotted).length).map
          toAsciiLowercase =
        (strBytes systemNamespaceDotted).map toAsciiLowercase)) ∧
    ("ſystem".data.map unicodeSimpleFold = "system".data) ∧
    ("ſystem" ≠ "system") ∧
    isReservedNamespace "ſystem" = false ∧
    (∃ r' : Registry,
      upsert Registry.new sampleService [⟨"ſystem", .Discover⟩] =
        .ok r' [[Change.Add ⟨"ſystem", .Discover⟩ [sampleService]]] ∧
      sampleService ∈ (mapLookup r'.external_services_by_intent
        ⟨"ſystem", .Discover⟩).getD []) := by
  refine ⟨?_, by decide, by decide, by decide,
    ⟨⟨[(⟨"ſystem", .Discover⟩, [sampleService])], [sampleService]⟩,
      by decide, by decide⟩⟩
  intro ns
  unfold isReservedNamespace
  rw [Bool.or_eq_true, eqIgnoreAsciiCase_iff, startsWith_iff]

end Chariott
